import Mathlib

/-!
# bladeRF Linux backend (`linux/lib/src/backend/linux.c`)

A shallow embedding of the kernel-driver backend of libbladeRF and a set of
theorems about it.

## Modelling conventions

* The backend talks to the outside world only through system calls
  (`ioctl`, `write`, `read`, `open`, `close`, `malloc`, `gettimeofday`, ...).
  The outside world is an `Env`: a function that, given the history of calls
  and replies so far and the next call, produces the reply.  Every embedded
  function threads the history (`Log`) explicitly, so the log that a function
  returns is exactly the sequence of calls it issued, each with its reply.
* `size_t` is 64 bits wide (`% 2 ^ 64`), `ssize_t` and `long` are 64-bit
  two's complement, `unsigned int` is 32 bits.
* Loops that the environment can keep alive for ever (short writes,
  interrupted transfers, polling) take a fuel argument and return `none` when
  the fuel runs out.
* Values that come from headers which are not part of the sources at hand
  (`libbladeRF.h`, `bladerf_priv.h`, `conversions.h`) are the fields of `Hdr`.
-/

namespace BladeRF

/-! ## The outside world -/

/-- The `ioctl` requests of the kernel driver that the backend issues. -/
inductive Ioctl
  | BLADE_BEGIN_PROG
  | BLADE_END_PROG
  | BLADE_QUERY_FPGA_STATUS
  | BLADE_UPGRADE_FW
  | BLADE_QUERY_VERSION
  | BLADE_SI5338_READ
  | BLADE_SI5338_WRITE
  | BLADE_LMS_READ
  | BLADE_LMS_WRITE
  | BLADE_GPIO_READ
  | BLADE_GPIO_WRITE
  | BLADE_VCTCXO_WRITE
  | BLADE_GET_SPEED
  | BLADE_GET_BUS
  | BLADE_GET_ADDR
  deriving DecidableEq, Repr

/-- A call that leaves the backend.  For `ioctl` the two numbers are the
`addr` and `data` fields of the `struct uart_cmd` handed to the driver (both
`0` for requests that only have an out-parameter); for `write` and `read` they
are the offset of the buffer pointer from the start of the caller's buffer and
the requested length. -/
inductive Call
  | ioctl (fd : Int) (cmd : Ioctl) (addr data : Nat)
  | write (fd : Int) (off len : Nat)
  | read (fd : Int) (off len : Nat)
  | open_dev (inst : Nat)
  | close (fd : Int)
  | malloc
  | gettimeofday
  | usleep (usec : Nat)
  | devinfo_list_init
  deriving DecidableEq, Repr

/-- What a call gives back: its return value, the value of `errno` after a
failing call, and up to two words written through out-parameters (the `data`
byte of a `uart_cmd`, an `int` result, or `tv_sec` and `tv_usec`). -/
structure Reply where
  ret : Int
  errno : Int
  out : Int
  out2 : Int
  deriving DecidableEq, Repr

/-- One entry of the history: a call and the reply it got. -/
structure Event where
  call : Call
  reply : Reply
  deriving DecidableEq, Repr

/-- The history of calls issued so far, oldest first. -/
abbrev Log := List Event

/-- The environment: the reply to the next call as a function of the history,
and the names found in `BLADERF_DEV_DIR` (in the order `readdir` reports
them). -/
structure Env where
  sys : Log → Call → Reply
  dir : List (List Char)

/-- Issue one call: ask the environment and append the event to the log. -/
def Env.call (env : Env) (log : Log) (c : Call) : Reply × Log :=
  (env.sys log c, log ++ [⟨c, env.sys log c⟩])

/-! ## Declarations from headers outside the sources at hand -/

/-- The fields of `struct bladerf_devinfo` the backend touches. -/
structure DevInfo where
  backend : Nat
  instance_ : Nat
  usb_bus : Int
  usb_addr : Int
  serial : Nat
  deriving DecidableEq, Repr

/-- Constants and sizes declared in `libbladeRF.h`, `bladerf_priv.h` and
`conversions.h`, which are not among the sources at hand.  They are parameters
of the embedding; theorems say which properties of them they rely on. -/
structure Hdr where
  BLADERF_ERR_UNEXPECTED : Int
  BLADERF_ERR_IO : Int
  BLADERF_ERR_TIMEOUT : Int
  /-- Number of bytes of one c16 sample, the ratio used by
  `c16_samples_to_bytes` and `bytes_to_c16_samples`. -/
  c16_sample_bytes : Nat
  BACKEND_ANY : Nat
  BACKEND_LINUX : Nat
  DEVINFO_INST_ANY : Nat
  DEVINFO_ADDR_ANY : Int
  /-- What `bladerf_init_devinfo` stores. -/
  devinfo_init : DevInfo

/-- The header values used where a theorem evaluates the code at a concrete
input, as libbladeRF declares them: error codes `-1`, `-5`, `-6`, four bytes
per c16 sample (two `int16_t`), wildcards equal to the largest value of the
field's type.  Theorems that quantify over `Hdr` do not depend on them. -/
def hdr0 : Hdr where
  BLADERF_ERR_UNEXPECTED := -1
  BLADERF_ERR_IO := -5
  BLADERF_ERR_TIMEOUT := -6
  c16_sample_bytes := 4
  BACKEND_ANY := 0
  BACKEND_LINUX := 1
  DEVINFO_INST_ANY := 4294967295
  DEVINFO_ADDR_ANY := 255
  devinfo_init := ⟨0, 4294967295, 255, 255, 18446744073709551615⟩

/-- `EINTR` of Linux. -/
def EINTR : Int := 4

/-- `ETIMEDOUT` of Linux. -/
def ETIMEDOUT : Int := 110

/-- Conversion of a signed value to `size_t`. -/
def toSize (x : Int) : Nat := (x % 18446744073709551616).toNat

/-- Conversion of a `size_t` value to `ssize_t`. -/
def toSSize (x : Nat) : Int :=
  if x % 18446744073709551616 < 9223372036854775808 then ((x % 18446744073709551616 : Nat) : Int)
  else ((x % 18446744073709551616 : Nat) : Int) - 18446744073709551616

/-- The device handle: `struct bladerf` with its `struct bladerf_linux`
backend data (the file descriptor) and its error context (the `errno` value
stored by `bladerf_set_error(.., ETYPE_ERRNO, ..)`, if any). -/
structure Bladerf where
  fd : Int
  error : Option Int
  deriving DecidableEq, Repr

/-- A `struct timeval`. -/
structure Timeval where
  tv_sec : Int
  tv_usec : Int
  deriving DecidableEq, Repr

/-! ## FPGA loading -/

/-- `time_past`: is `now` strictly later than `ref`? -/
def time_past (ref now : Timeval) : Bool :=
  if now.tv_sec > ref.tv_sec then true
  else if now.tv_sec = ref.tv_sec ∧ now.tv_usec > ref.tv_usec then true
  else false

/-- `min_sz`. -/
def min_sz (x y : Nat) : Nat := if x < y then x else y

/-- `linux_is_fpga_configured`: one `BLADE_QUERY_FPGA_STATUS` request; the
result is `0`, `1` or `BLADERF_ERR_IO`. -/
def linux_is_fpga_configured (c : Hdr) (env : Env) (dev : Bladerf) (log : Log) : Int × Log :=
  let r := env.call log (.ioctl dev.fd .BLADE_QUERY_FPGA_STATUS 0 0)
  let status := r.1.ret
  let configured := r.1.out
  if status ≠ 0 ∨ configured < 0 ∨ configured > 1 then (c.BLADERF_ERR_IO, r.2)
  else (configured, r.2)

/-- `linux_begin_fpga_programming`. -/
def linux_begin_fpga_programming (c : Hdr) (env : Env) (fd : Int) (log : Log) : Int × Log :=
  let r := env.call log (.ioctl fd .BLADE_BEGIN_PROG 0 0)
  if r.1.ret ≠ 0 then (c.BLADERF_ERR_UNEXPECTED, r.2) else (0, r.2)

/-- `linux_end_fpga_programming`. -/
def linux_end_fpga_programming (c : Hdr) (env : Env) (fd : Int) (log : Log) : Int × Log :=
  let r := env.call log (.ioctl fd .BLADE_END_PROG 0 0)
  if r.1.ret ≠ 0 then (c.BLADERF_ERR_UNEXPECTED, r.2) else (0, r.2)

/-- The inner `do { write ... } while (written < image_size)` of
`linux_load_fpga`.  `to_write` is the value computed before the loop is
entered; the loop does not change it.  The result is `.error BLADERF_ERR_IO`
when the function returns from inside the loop, else `.ok written`. -/
def load_fpga_write (c : Hdr) (env : Env) (fd : Int) (image_size to_write : Nat) :
    Nat → Nat → Log → Option (Except Int Nat × Log)
  | 0, _, _ => none
  | fuel + 1, written, log =>
    let r := env.call log (.write fd written to_write)
    let write_tmp := r.1.ret
    if write_tmp < 0 then
      -- Failing out...at least attempt to "finish" programming
      let e := env.call r.2 (.ioctl fd .BLADE_END_PROG 0 0)
      some (.error c.BLADERF_ERR_IO, e.2)
    else
      let written := (written + write_tmp.toNat) % 18446744073709551616
      if written < image_size then load_fpga_write c env fd image_size to_write fuel written r.2
      else some (.ok written, r.2)

/-- The outer `while (written < image_size)` of `linux_load_fpga`. -/
def load_fpga_stream (c : Hdr) (env : Env) (fd : Int) (image_size : Nat) :
    Nat → Nat → Log → Option (Except Int Nat × Log)
  | 0, _, _ => none
  | fuel + 1, written, log =>
    if written < image_size then
      let to_write := min_sz 1024 (image_size - written)
      match load_fpga_write c env fd image_size to_write fuel written log with
      | none => none
      | some (.error e, log) => some (.error e, log)
      | some (.ok written, log) => load_fpga_stream c env fd image_size fuel written log
    else some (.ok written, log)

/-- The polling `do { ... } while (!fpga_status && !timed_out && !ret)` of
`linux_load_fpga`; the result is the final value of `ret`. -/
def load_fpga_poll (c : Hdr) (env : Env) (dev : Bladerf) (end_time : Timeval) :
    Nat → Int → Bool → Log → Option (Int × Log)
  | 0, _, _, _ => none
  | fuel + 1, ret, timed_out, log =>
    let q := linux_is_fpga_configured c env dev log
    let fpga_status := q.1
    if fpga_status < 0 then
      let ret := fpga_status
      if fpga_status = 0 ∧ timed_out = false ∧ ret = 0 then
        load_fpga_poll c env dev end_time fuel ret timed_out q.2
      else some (ret, q.2)
    else
      let t := env.call q.2 .gettimeofday
      let timed_out := time_past end_time ⟨t.1.out, t.1.out2⟩
      if fpga_status = 0 ∧ timed_out = false ∧ ret = 0 then
        load_fpga_poll c env dev end_time fuel ret timed_out t.2
      else some (ret, t.2)

/-- `linux_load_fpga` on an image of `image_size` bytes.  The result is the
returned status and the log. -/
def linux_load_fpga (c : Hdr) (env : Env) (fuel : Nat) (dev : Bladerf) (image_size : Nat)
    (log : Log) : Option (Int × Log) :=
  let b := linux_begin_fpga_programming c env dev.fd log
  if b.1 < 0 then some (b.1, b.2)
  else
    match load_fpga_stream c env dev.fd image_size fuel 0 b.2 with
    | none => none
    | some (.error e, log) => some (e, log)
    | some (.ok _, log) =>
      let s := env.call log (.usleep 4000)
      -- Time out within 1 second
      let t := env.call s.2 .gettimeofday
      let end_time : Timeval := ⟨t.1.out + 1, t.1.out2⟩
      -- timed_out is not initialised; it is not read before it is assigned
      match load_fpga_poll c env dev end_time fuel 0 false t.2 with
      | none => none
      | some (ret, log) =>
        let e := linux_end_fpga_programming c env dev.fd log
        let end_prog_status := e.1
        -- Return the first error encountered
        if end_prog_status < 0 ∧ ret = 0 then some (end_prog_status, e.2)
        else some (ret, e.2)

/-! ## Register access -/

/-- `linux_si5338_read`: the result is the returned status and `*val`. -/
def linux_si5338_read (env : Env) (dev : Bladerf) (address : Nat) (log : Log) :
    (Int × Nat) × Log :=
  let address := address &&& 0x7f
  let r := env.call log (.ioctl dev.fd .BLADE_SI5338_READ address 0xff)
  ((r.1.ret, (r.1.out % 256).toNat), r.2)

/-- `linux_si5338_write`. -/
def linux_si5338_write (env : Env) (dev : Bladerf) (address val : Nat) (log : Log) : Int × Log :=
  let r := env.call log (.ioctl dev.fd .BLADE_SI5338_WRITE address val)
  (r.1.ret, r.2)

/-- `linux_lms_read`: the result is the returned status and `*val`. -/
def linux_lms_read (env : Env) (dev : Bladerf) (address : Nat) (log : Log) :
    (Int × Nat) × Log :=
  let address := address &&& 0x7f
  let r := env.call log (.ioctl dev.fd .BLADE_LMS_READ address 0xff)
  ((r.1.ret, (r.1.out % 256).toNat), r.2)

/-- `linux_lms_write`. -/
def linux_lms_write (env : Env) (dev : Bladerf) (address val : Nat) (log : Log) : Int × Log :=
  let r := env.call log (.ioctl dev.fd .BLADE_LMS_WRITE address val)
  (r.1.ret, r.2)

/-- The `for (i = 0; i < 4; i++)` of `linux_gpio_read`, with `k` iterations
left.  The result is `ret` and `rval`.  The shift `uc.data << (i * 8)` is
computed in `int`; what it adds to the `uint32_t rval` is taken modulo `2 ^ 32`,
as the compilers for Linux do. -/
def gpio_read_loop (c : Hdr) (env : Env) (dev : Bladerf) :
    Nat → Nat → Nat → Int → Log → (Int × Nat) × Log
  | 0, _, rval, ret, log => ((ret, rval), log)
  | k + 1, i, rval, _, log =>
    let r := env.call log (.ioctl dev.fd .BLADE_GPIO_READ i 0xff)
    if r.1.ret ≠ 0 then
      ((if r.1.errno = ETIMEDOUT then c.BLADERF_ERR_TIMEOUT else c.BLADERF_ERR_UNEXPECTED, rval),
        r.2)
    else
      let data := (r.1.out % 256).toNat
      gpio_read_loop c env dev k (i + 1) ((rval ||| (data <<< (i * 8))) % 4294967296) r.1.ret r.2

/-- `linux_gpio_read`: the result is the returned status and `*val`. -/
def linux_gpio_read (c : Hdr) (env : Env) (dev : Bladerf) (log : Log) : (Int × Nat) × Log :=
  gpio_read_loop c env dev 4 0 0 0 log

/-- The `for (i = 0; i < 4; i++)` of `linux_gpio_write`, with `k` iterations
left. -/
def gpio_write_loop (c : Hdr) (env : Env) (dev : Bladerf) (val : Nat) :
    Nat → Nat → Int → Log → Int × Log
  | 0, _, ret, log => (ret, log)
  | k + 1, i, _, log =>
    let r := env.call log (.ioctl dev.fd .BLADE_GPIO_WRITE i ((val >>> (i * 8)) % 256))
    if r.1.ret ≠ 0 then
      (if r.1.errno = ETIMEDOUT then c.BLADERF_ERR_TIMEOUT else c.BLADERF_ERR_UNEXPECTED, r.2)
    else gpio_write_loop c env dev val k (i + 1) r.1.ret r.2

/-- `linux_gpio_write`. -/
def linux_gpio_write (c : Hdr) (env : Env) (dev : Bladerf) (val : Nat) (log : Log) : Int × Log :=
  gpio_write_loop c env dev val 4 0 0 log

/-- The `for (i = 0; i < 4; i++)` of `linux_dac_write`, with `k` iterations
left. -/
def dac_write_loop (env : Env) (dev : Bladerf) (val : Nat) : Nat → Nat → Int → Log → Int × Log
  | 0, _, ret, log => (ret, log)
  | k + 1, i, _, log =>
    let r := env.call log (.ioctl dev.fd .BLADE_VCTCXO_WRITE i ((val >>> (i * 8)) % 256))
    if r.1.ret ≠ 0 then (r.1.ret, r.2)
    else dac_write_loop env dev val k (i + 1) r.1.ret r.2

/-- `linux_dac_write`.  (Its `uc.word = val` is overwritten by the assignments
to `uc.addr` and `uc.data` before the first request.) -/
def linux_dac_write (env : Env) (dev : Bladerf) (val : Nat) (log : Log) : Int × Log :=
  dac_write_loop env dev val 4 0 0 log

/-! ## Data transfer -/

/-- Modelled from the spec: `c16_samples_to_bytes` of `conversions.h`, which is
not among the sources at hand, converts a sample count to a byte length "via a
fixed sample-to-byte ratio"; the product is a `size_t`. -/
def c16_samples_to_bytes (c : Hdr) (n : Nat) : Nat :=
  (n * c.c16_sample_bytes) % 18446744073709551616

/-- Modelled from the spec: `bytes_to_c16_samples` of `conversions.h`, which is
not among the sources at hand, "converts accumulated bytes back to a sample
count" by the same fixed ratio. -/
def bytes_to_c16_samples (c : Hdr) (n_bytes : Nat) : Nat :=
  n_bytes / c.c16_sample_bytes

/-- The `while (bytes_written < bytes_total)` of `linux_tx`.  The state is
`ret`, `bytes_written` and the device handle (for its error context). -/
def tx_loop (c : Hdr) (env : Env) (bytes_total : Nat) :
    Nat → Int → Nat → Bladerf → Log → Option ((Int × Nat × Bladerf) × Log)
  | 0, _, _, _, _ => none
  | fuel + 1, ret, bytes_written, dev, log =>
    if bytes_written < bytes_total then
      let r := env.call log (.write dev.fd bytes_written (bytes_total - bytes_written))
      let i := r.1.ret
      if i < 0 ∧ r.1.errno ≠ EINTR then
        let errno_val := r.1.errno
        -- bladerf_set_error(&dev->error, ETYPE_ERRNO, errno_val);
        -- bytes_written = BLADERF_ERR_IO; break
        some ((ret, toSize c.BLADERF_ERR_IO, { dev with error := some errno_val }), r.2)
      else if i > 0 then
        tx_loop c env bytes_total fuel ret ((bytes_written + i.toNat) % 18446744073709551616) dev r.2
      else tx_loop c env bytes_total fuel ret bytes_written dev r.2
    else some ((ret, bytes_written, dev), log)

/-- `linux_tx` of `n` samples: the returned `ssize_t`, the device handle
afterwards, and the log. -/
def linux_tx (c : Hdr) (env : Env) (fuel : Nat) (dev : Bladerf) (n : Nat) (log : Log) :
    Option ((Int × Bladerf) × Log) :=
  let bytes_total := c16_samples_to_bytes c n
  match tx_loop c env bytes_total fuel 0 0 dev log with
  | none => none
  | some ((ret, bytes_written, dev), log) =>
    if ret < 0 then some ((ret, dev), log)
    else some ((toSSize (bytes_to_c16_samples c bytes_written), dev), log)

/-- The `while (bytes_read < bytes_total)` of `linux_rx`.  The state is `ret`,
`bytes_read` and the device handle (for its error context). -/
def rx_loop (c : Hdr) (env : Env) (bytes_total : Nat) :
    Nat → Int → Nat → Bladerf → Log → Option ((Int × Nat × Bladerf) × Log)
  | 0, _, _, _, _ => none
  | fuel + 1, ret, bytes_read, dev, log =>
    if bytes_read < bytes_total then
      let r := env.call log (.read dev.fd bytes_read (bytes_total - bytes_read))
      let i := r.1.ret
      if i < 0 ∧ r.1.errno ≠ EINTR then
        let errno_val := r.1.errno
        -- bladerf_set_error(&dev->error, ETYPE_ERRNO, errno_val);
        -- ret = BLADERF_ERR_IO; break
        some ((c.BLADERF_ERR_IO, bytes_read, { dev with error := some errno_val }), r.2)
      else if i > 0 then
        rx_loop c env bytes_total fuel ret ((bytes_read + i.toNat) % 18446744073709551616) dev r.2
      else rx_loop c env bytes_total fuel ret bytes_read dev r.2
    else some ((ret, bytes_read, dev), log)

/-- `linux_rx` of `n` samples: the returned `ssize_t`, the device handle
afterwards, and the log. -/
def linux_rx (c : Hdr) (env : Env) (fuel : Nat) (dev : Bladerf) (n : Nat) (log : Log) :
    Option ((Int × Bladerf) × Log) :=
  let bytes_total := c16_samples_to_bytes c n
  match rx_loop c env bytes_total fuel 0 0 dev log with
  | none => none
  | some ((ret, bytes_read, dev), log) =>
    if ret < 0 then some ((ret, dev), log)
    else some ((toSSize (bytes_to_c16_samples c bytes_read), dev), log)

/-! ## Device discovery: the name filter -/

/-- `BLADERF_DEV_PFX`. -/
def BLADERF_DEV_PFX : List Char := [ 'b', 'l', 'a', 'd', 'e', 'r', 'f']

/-- `LONG_MAX` of a 64-bit `long`. -/
def LONG_MAX : Int := 9223372036854775807

/-- `LONG_MIN` of a 64-bit `long`. -/
def LONG_MIN : Int := -9223372036854775808

/-- `ERANGE` of Linux. -/
def ERANGE : Int := 34

/-- `isspace` of the C locale: space, `\t`, `\n`, `\v`, `\f`, `\r`. -/
def isspace (ch : Char) : Bool :=
  ch.toNat = 32 || (9 ≤ ch.toNat && ch.toNat ≤ 13)

/-- `isdigit`. -/
def isdigit (ch : Char) : Bool :=
  48 ≤ ch.toNat && ch.toNat ≤ 57

/-- The value of a string of decimal digits. -/
def dec_value (ds : List Char) : Nat :=
  ds.foldl (fun acc d => acc * 10 + (d.toNat - 48)) 0

/-- What `strtol` hands back: the returned value, the rest of the string at
`*endptr`, and whether it stored `ERANGE` in `errno`. -/
structure StrtolResult where
  value : Int
  endptr : List Char
  erange : Bool
  deriving DecidableEq, Repr

/-- `strtol(s, &endptr, 10)` of the C library: skip white space, read an
optional sign and the longest run of decimal digits; without a digit nothing
is converted (`0`, `endptr = s`); a value outside `long` is clamped and
`errno` becomes `ERANGE`. -/
def strtol (s : List Char) : StrtolResult :=
  let t := s.dropWhile isspace
  let neg := t.head? = some '-'
  let u := if t.head? = some '-' ∨ t.head? = some '+' then t.tail else t
  let ds := u.takeWhile isdigit
  let rest := u.dropWhile isdigit
  if ds = [] then ⟨0, s, false⟩
  else if neg then
    if (dec_value ds : Int) > 9223372036854775808 then ⟨LONG_MIN, rest, true⟩
    else ⟨-(dec_value ds : Int), rest, false⟩
  else
    if (dec_value ds : Int) > LONG_MAX then ⟨LONG_MAX, rest, true⟩
    else ⟨(dec_value ds : Int), rest, false⟩

/-- `device_filter` on the entry name `d_name`, entered with the given value
of `errno` (the function does not clear it before `strtol`). -/
def device_filter (errno : Int) (d_name : List Char) : Int :=
  let pfx_len := BLADERF_DEV_PFX.length
  if d_name.length > pfx_len ∧ d_name.take pfx_len = BLADERF_DEV_PFX then
    -- Is the remainder of the entry a valid (positive) integer?
    let r := strtol (d_name.drop pfx_len)
    let tmp := r.value
    let errno := if r.erange then ERANGE else errno
    if r.endptr ≠ [] ∨ tmp < 0 ∨ (errno = ERANGE ∧ (tmp = LONG_MAX ∨ tmp = LONG_MIN)) then 0
    else 1
  else 0

/-- `strcmp` of the C library, reduced to its sign. -/
def strcmp : List Char → List Char → Int
  | [], [] => 0
  | [], _ :: _ => -1
  | _ :: _, [] => 1
  | a :: as, b :: bs =>
    if a.toNat < b.toNat then -1 else if b.toNat < a.toNat then 1 else strcmp as bs

/-- `alphasort` of the C library in the C locale, where `strcoll` is `strcmp`. -/
def alphasort (a b : List Char) : Int := strcmp a b

/-- `scandir(BLADERF_DEV_DIR, &matches, device_filter, alphasort)` of the C
library: the entries the filter accepts, sorted with `alphasort`.  The GNU C
library clears `errno` before each call of the filter, hence the `0`. -/
def scandir (env : Env) : List (List Char) :=
  (env.dir.filter (fun d => device_filter 0 d ≠ 0)).insertionSort (fun a b => alphasort a b ≤ 0)

/-! ## Device discovery and open -/

/-- Conversion to `unsigned int`. -/
def toUInt (x : Int) : Nat := (x % 4294967296).toNat

/-- Conversion of an `unsigned int` to `int`. -/
def toInt32 (x : Nat) : Int :=
  if x % 4294967296 < 2147483648 then ((x % 4294967296 : Nat) : Int)
  else ((x % 4294967296 : Nat) : Int) - 4294967296

/-- Modelled from the spec: `str2uint` of `conversions.c`, which is not among
the sources at hand, has to "parse the suffix into an instance number" and to
report through `ok` whether "parsing fails"; here a non-empty string of
decimal digits whose value lies in `[min, max]` parses, anything else does
not. -/
def str2uint (str : List Char) (min max : Nat) : Nat × Bool :=
  if str ≠ [] ∧ str.all isdigit ∧ min ≤ dec_value str ∧ dec_value str ≤ max then
    (dec_value str, true)
  else (0, false)

/-- `str2instance`: the `int` it returns.  (Its `assert` on the length of the
name holds for every name `device_filter` accepts.) -/
def str2instance (c : Hdr) (bladerf_dev : List Char) : Int :=
  let pfx_len := BLADERF_DEV_PFX.length
  let r := str2uint (bladerf_dev.drop pfx_len) 0 4294967295
  if r.2 then toInt32 r.1
  else toInt32 (toUInt ((c.DEVINFO_INST_ANY : Int) - 1))

/-- Modelled from the spec: `bladerf_devinfo_matches` of `devinfo.c`, which is
not among the sources at hand: device descriptions are "compared
field-by-field (with wildcard matching on "any" fields)".  The wildcard of each
field is the value `bladerf_init_devinfo` stores in it. -/
def bladerf_devinfo_matches (c : Hdr) (a b : DevInfo) : Bool :=
  (a.backend = c.devinfo_init.backend || b.backend = c.devinfo_init.backend
    || a.backend = b.backend)
  && (a.instance_ = c.devinfo_init.instance_ || b.instance_ = c.devinfo_init.instance_
    || a.instance_ = b.instance_)
  && (a.usb_bus = c.devinfo_init.usb_bus || b.usb_bus = c.devinfo_init.usb_bus
    || a.usb_bus = b.usb_bus)
  && (a.usb_addr = c.devinfo_init.usb_addr || b.usb_addr = c.devinfo_init.usb_addr
    || a.usb_addr = b.usb_addr)
  && (a.serial = c.devinfo_init.serial || b.serial = c.devinfo_init.serial
    || a.serial = b.serial)

/-- Ways in which a run leaves the behaviour the C standard defines, or the
embedding's fuel. -/
inductive Fault
  /-- A pointer that was never assigned, or whose target was freed, is
  dereferenced. -/
  | undefined
  /-- An `assert` fails. -/
  | assertion
  /-- The recursion between `linux_open` and `linux_probe` went deeper than the
  fuel. -/
  | fuel
  deriving DecidableEq, Repr

/-- The result of `linux_open`: the returned status and the handle it stored in
`*device`, if it stored one. -/
abbrev OpenResult := Except Fault (Int × Option Bladerf) × Log

/-- `linux_get_serial`: status and `*serial`. -/
def linux_get_serial : Int × Nat := (0, 0)

/-- `linux_close`. -/
def linux_close (c : Hdr) (env : Env) (dev : Bladerf) (log : Log) : Int × Log :=
  let r := env.call log (.close dev.fd)
  if r.1.ret < 0 then (c.BLADERF_ERR_IO, r.2) else (0, r.2)

/-- The branch of `linux_open` for a given instance: open the device node
`/dev/bladerf<instance>`, then allocate the backend data and the handle. -/
def open_instance (c : Hdr) (env : Env) (info : DevInfo) (log : Log) :
    (Int × Option Bladerf) × Log :=
  let o := env.call log (.open_dev info.instance_)
  let fd := o.1.ret
  if fd ≥ 0 then
    let backend := env.call o.2 .malloc
    let ret := env.call backend.2 .malloc
    if backend.1.ret ≠ 0 ∧ ret.1.ret ≠ 0 then ((0, some ⟨fd, none⟩), ret.2)
    else ((c.BLADERF_ERR_IO, none), ret.2)
  else ((c.BLADERF_ERR_IO, none), o.2)

/-- The `for (i = 0; i < list.num_elt && !ret; i++)` of the wildcard branch of
`linux_open`, over the elements still to visit.  `ret` is the local variable of
that name, `device` is what `*device` holds (if it was ever stored), `opn` is
the recursive `linux_open`. -/
def open_scan (c : Hdr) (opn : DevInfo → Log → OpenResult) (info : DevInfo) :
    List DevInfo → Option Bladerf → Int → Option Bladerf → Log → OpenResult
  | [], _, status, device, log => (.ok (status, device), log)
  | elt :: rest, ret, status, device, log =>
    if ret.isSome then (.ok (status, device), log)
    else if bladerf_devinfo_matches c elt info then
      match opn elt log with
      | (.error f, log) => (.error f, log)
      | (.ok (status, stored), log) =>
        let device := if stored.isSome then stored else device
        if status ≠ 0 then
          -- Failed to open instance - trying next
          open_scan c opn info rest ret status device log
        else if device.isSome then
          -- backend = (*device)->backend
          open_scan c opn info rest ret status device log
        else (.error .undefined, log)
    else open_scan c opn info rest ret status device log

/-- The `for (i = 0; i < num_matches; i++)` of `linux_probe`, over the matches
still to visit; `info_list` is the list built so far, `opn` is
`linux_open`. -/
def probe_scan (c : Hdr) (env : Env) (opn : DevInfo → Log → OpenResult) :
    List (List Char) → List DevInfo → Log → Except Fault (List DevInfo) × Log
  | [], info_list, log => (.ok info_list, log)
  | d_name :: rest, info_list, log =>
    let devinfo : DevInfo :=
      { c.devinfo_init with
        backend := c.BACKEND_LINUX
        instance_ := toUInt (str2instance c d_name) }
    match opn devinfo log with
    | (.error f, log) => (.error f, log)
    | (.ok (status, stored), log) =>
      match stored with
      | none =>
        -- backend = dev->backend: dev was not assigned by this call, and what
        -- an earlier iteration left in it has been freed by linux_close
        (.error .undefined, log)
      | some dev =>
        if status = 0 then
          -- Fetch USB bus and address
          -- status = ioctl(BLADE_GET_BUS); if (status < 0) status = BLADERF_ERR_IO;
          -- else { assert(...); devinfo.usb_bus = tmp; }
          let b := env.call log (.ioctl dev.fd .BLADE_GET_BUS 0 0)
          if b.1.ret ≥ 0 ∧ ¬ (b.1.out ≥ 0 ∨ b.1.out < toInt32 c.DEVINFO_INST_ANY) then
            (.error .assertion, b.2)
          else
            let devinfo := if b.1.ret < 0 then devinfo else { devinfo with usb_bus := b.1.out }
            -- status = ioctl(BLADE_GET_ADDR), which overwrites the status of the
            -- bus query; if (status < 0) status = BLADERF_ERR_IO;
            -- else { assert(...); devinfo.usb_addr = tmp; }
            let a := env.call b.2 (.ioctl dev.fd .BLADE_GET_ADDR 0 0)
            if a.1.ret ≥ 0 ∧ ¬ (a.1.out ≥ 0 ∧ a.1.out < c.DEVINFO_ADDR_ANY) then
              (.error .assertion, a.2)
            else
              let devinfo := if a.1.ret < 0 then devinfo else { devinfo with usb_addr := a.1.out }
              -- Fetch device's serial #
              -- status = linux_get_serial(dev, &devinfo.serial), which overwrites
              -- the status of the address query
              let status := linux_get_serial.1
              let devinfo := { devinfo with serial := linux_get_serial.2 }
              let status := if status < 0 then c.BLADERF_ERR_IO else status
              let info_list := if status = 0 then info_list ++ [devinfo] else info_list
              let cl := linux_close c env dev a.2
              probe_scan c env opn rest info_list cl.2
        else
          -- Failed to open instance
          let cl := linux_close c env dev log
          probe_scan c env opn rest info_list cl.2

/-- `linux_open`.  The fuel bounds the depth of the recursion through
`linux_probe`: a call for a given instance needs `1`, a wildcard call over
candidates with given instances needs `2`. -/
def linux_open (c : Hdr) (env : Env) : Nat → DevInfo → Log → OpenResult
  | 0, _, log => (.error .fuel, log)
  | fuel + 1, info, log =>
    if ¬ (info.backend = c.BACKEND_LINUX ∨ info.backend = c.BACKEND_ANY) then
      (.error .assertion, log)
    else if info.instance_ ≠ c.DEVINFO_INST_ANY then
      -- If an instance is specified, we start with that
      let r := open_instance c env info log
      (.ok r.1, r.2)
    else
      let li := env.call log .devinfo_list_init
      if li.1.ret < 0 then (.ok (li.1.ret, none), li.2)
      else
        -- status = linux_probe(&list), which returns 0
        match probe_scan c env (fun i l => linux_open c env fuel i l) (scandir env) [] li.2 with
        | (.error f, log) => (.error f, log)
        | (.ok list, log) =>
          open_scan c (fun i l => linux_open c env fuel i l) info list none 0 none log

/-- `linux_probe`: the returned status (always `0`) and the list after the
loop over the matches of `scandir`. -/
def linux_probe (c : Hdr) (env : Env) (fuel : Nat) (info_list : List DevInfo) (log : Log) :
    Except Fault (Int × List DevInfo) × Log :=
  match probe_scan c env (fun i l => linux_open c env fuel i l) (scandir env) info_list log with
  | (.error f, log) => (.error f, log)
  | (.ok list, log) => (.ok (0, list), log)

/-! ### Observations on a log -/

/-- The `(offset, length)` of the `write` calls of a log, in order. -/
def writesOf : Log → List (Nat × Nat)
  | [] => []
  | ⟨.write _ off len, _⟩ :: rest => (off, len) :: writesOf rest
  | _ :: rest => writesOf rest

/-- The number of `ioctl` requests `cmd` in a log. -/
def countIoctl (cmd : Ioctl) : Log → Nat
  | [] => 0
  | ⟨.ioctl _ k _ _, _⟩ :: rest => (if k = cmd then 1 else 0) + countIoctl cmd rest
  | _ :: rest => countIoctl cmd rest

/-- An environment whose control channel accepts every `write` in full, whose
commands all succeed and whose FPGA reports "configured". -/
def envFull : Env where
  sys := fun _ c =>
    match c with
    | .write _ _ len => ⟨len, 0, 0, 0⟩
    | .ioctl _ .BLADE_QUERY_FPGA_STATUS _ _ => ⟨0, 0, 1, 0⟩
    | _ => ⟨0, 0, 0, 0⟩
  dir := []

/-- The instances of the `open` calls of a log, in order. -/
def opensOf : Log → List Nat
  | [] => []
  | ⟨.open_dev inst, _⟩ :: rest => inst :: opensOf rest
  | _ :: rest => opensOf rest

/-- An environment with the given directory in which every call succeeds; the
file descriptor of instance `i` is `10 + i`. -/
def envOk (dir : List (List Char)) : Env where
  sys := fun _ c =>
    match c with
    | .open_dev inst => ⟨10 + inst, 0, 0, 0⟩
    | .malloc => ⟨1, 0, 0, 0⟩
    | _ => ⟨0, 0, 0, 0⟩
  dir := dir

/-- An environment whose FPGA never reports "configured": every `write` is
accepted in full, every command succeeds, and the clock advances by one second
every four calls. -/
def envTimeout : Env where
  sys := fun log c =>
    match c with
    | .write _ _ len => ⟨len, 0, 0, 0⟩
    | .gettimeofday => ⟨0, 0, log.length / 4, 0⟩
    | _ => ⟨0, 0, 0, 0⟩
  dir := []

/-- An environment in which the second `write` fails with `EIO` and the
following `BLADE_END_PROG` fails as well. -/
def envWriteFails : Env where
  sys := fun log c =>
    match c with
    | .write _ _ _ => if log.length < 2 then ⟨10, 0, 0, 0⟩ else ⟨-1, 5, 0, 0⟩
    | .ioctl _ .BLADE_END_PROG _ _ => ⟨-1, 5, 0, 0⟩
    | _ => ⟨0, 0, 0, 0⟩
  dir := []

/-- Does the event record a `write` that returned a negative length? -/
def writeFailed (e : Event) : Bool :=
  match e.call with
  | .write _ _ _ => decide (e.reply.ret < 0)
  | _ => false

/-- Does the event record a configured-status poll that
`linux_is_fpga_configured` reports as an error? -/
def pollFailed (e : Event) : Bool :=
  match e.call with
  | .ioctl _ .BLADE_QUERY_FPGA_STATUS _ _ =>
    decide (e.reply.ret ≠ 0 ∨ e.reply.out < 0 ∨ e.reply.out > 1)
  | _ => false

/-- Does the event record a `BLADE_END_PROG` request that failed? -/
def endFailed (e : Event) : Bool :=
  match e.call with
  | .ioctl _ .BLADE_END_PROG _ _ => decide (e.reply.ret ≠ 0)
  | _ => false

/-- What the streaming phase of `linux_load_fpga` adds to the log: no poll; on
normal exit no `BLADE_END_PROG` and no failed `write`; on the early return one
`BLADE_END_PROG`, a failed `write`, and the status `BLADERF_ERR_IO`. -/
def StreamFacts (c : Hdr) (res : Except Int Nat) (tr : Log) : Prop :=
  tr.any pollFailed = false ∧
  match res with
  | .ok _ =>
    countIoctl .BLADE_END_PROG tr = 0 ∧ tr.any writeFailed = false ∧ tr.any endFailed = false
  | .error e =>
    e = c.BLADERF_ERR_IO ∧ countIoctl .BLADE_END_PROG tr = 1 ∧ tr.any writeFailed = true

/-- What the polling phase of `linux_load_fpga` adds to the log: no `write`, no
`BLADE_END_PROG`; its `ret` is `BLADERF_ERR_IO` when a poll failed and `0`
otherwise. -/
def PollFacts (c : Hdr) (ret : Int) (tr : Log) : Prop :=
  countIoctl .BLADE_END_PROG tr = 0 ∧ tr.any writeFailed = false ∧ tr.any endFailed = false ∧
  ((ret = c.BLADERF_ERR_IO ∧ tr.any pollFailed = true) ∨ (ret = 0 ∧ tr.any pollFailed = false))

/-- The status that the claims attribute to a run of `linux_load_fpga` whose
begin-programming command succeeded, read off the calls `tr` of the run: the
first error among a failed write, a failed poll and a failed
end-programming. -/
def firstError (c : Hdr) (tr : Log) : Int :=
  if tr.any writeFailed then c.BLADERF_ERR_IO
  else if tr.any pollFailed then c.BLADERF_ERR_IO
  else if tr.any endFailed then c.BLADERF_ERR_UNEXPECTED
  else 0

/-- The control channel makes progress: a `write` never reports more bytes than
were asked for, and from some call on a `write` of at least one byte never
reports zero bytes.  (A channel that reports zero bytes for ever keeps the
streaming loop of `linux_load_fpga` running for ever.) -/
def WritesProgress (env : Env) (fd : Int) : Prop :=
  (∀ l off len, (env.sys l (.write fd off len)).ret ≤ (len : Int)) ∧
  ∃ Z, ∀ l off len, Z ≤ l.length → 0 < len → (env.sys l (.write fd off len)).ret ≠ 0

/-- The polling cannot go on for ever: the clock eventually passes every
deadline, or from some call on the FPGA no longer reports "not configured"
(it reports "configured", or the poll fails).  (An FPGA that stays unconfigured
while the clock stands still keeps the polling loop of `linux_load_fpga`
running for ever.) -/
def PollingEnds (c : Hdr) (env : Env) (dev : Bladerf) : Prop :=
  (∀ end_time, ∃ N, ∀ l, N ≤ l.length →
    time_past end_time ⟨(env.sys l .gettimeofday).out, (env.sys l .gettimeofday).out2⟩ = true) ∨
  (∃ N, ∀ l, N ≤ l.length → (linux_is_fpga_configured c env dev l).1 ≠ 0)

/-- An environment whose every `write` is accepted in full, whose FPGA reports
"not configured" at first and whose polls fail once seven calls have been made,
and whose `BLADE_END_PROG` fails; the clock stands still. -/
def envPollFails : Env where
  sys := fun log c =>
    match c with
    | .write _ _ len => ⟨len, 0, 0, 0⟩
    | .ioctl _ .BLADE_QUERY_FPGA_STATUS _ _ =>
      if log.length < 7 then ⟨0, 0, 0, 0⟩ else ⟨-1, 5, 0, 0⟩
    | .ioctl _ .BLADE_END_PROG _ _ => ⟨-1, 5, 0, 0⟩
    | _ => ⟨0, 0, 0, 0⟩
  dir := []

/-- An environment whose every `write` is accepted in full and whose FPGA
reports "configured", but whose `BLADE_END_PROG` fails. -/
def envEndFails : Env where
  sys := fun _ c =>
    match c with
    | .write _ _ len => ⟨len, 0, 0, 0⟩
    | .ioctl _ .BLADE_QUERY_FPGA_STATUS _ _ => ⟨0, 0, 1, 0⟩
    | .ioctl _ .BLADE_END_PROG _ _ => ⟨-1, 5, 0, 0⟩
    | _ => ⟨0, 0, 0, 0⟩
  dir := []

/-- An environment whose control channel reports zero bytes for every
`write`. -/
def envStalls : Env where
  sys := fun _ _ => ⟨0, 0, 0, 0⟩
  dir := []

/-- An environment in which every raw `write` and `read` fails with `EIO`. -/
def envIoError : Env where
  sys := fun _ _ => ⟨-1, 5, 0, 0⟩
  dir := []

/-- The number of bytes a raw-call result moves, in the words of the spec: an
interruption or a zero-byte result moves nothing, a byte count moves that many
bytes. -/
def bytesMoved (r : Reply) : Nat := if 0 < r.ret then r.ret.toNat else 0

/-- The spec's admissible raw-call results for a transfer of `total` bytes of
which `moved` have been moved: each result is an interruption (negative, with
`errno == EINTR`) or a byte count between `0` and the number of bytes still
outstanding. -/
def validResults (total : Nat) : Nat → List Reply → Prop
  | _, [] => True
  | moved, r :: rs =>
    ((r.ret < 0 ∧ r.errno = EINTR) ∨ (0 ≤ r.ret ∧ r.ret ≤ ((total - moved : Nat) : Int))) ∧
    validResults total (moved + bytesMoved r) rs

/-- The raw calls the spec expects for a transfer of `total` bytes, given the
results `rs` the channel will hand back and the bytes `moved` so far: while the
total is not reached, one call at offset `moved` for the `total - moved`
outstanding bytes; `mk` makes the call (`write` or `read`) from offset and
length. -/
def expectedCalls (mk : Nat → Nat → Call) (total : Nat) : Nat → List Reply → Log
  | _, [] => []
  | moved, r :: rs =>
    if moved < total then
      ⟨mk moved (total - moved), r⟩ :: expectedCalls mk total (moved + bytesMoved r) rs
    else []

/-- An environment that hands back the results `rs`, one per call, in order. -/
def envScript (rs : List Reply) : Env where
  sys := fun log _ => rs.getD log.length ⟨0, 0, 0, 0⟩
  dir := []

/-- An environment with the given directory in which every device node opens
and every allocation succeeds, the `BLADE_GET_BUS` query returns `busRet` (bus
number 3, `errno` 5 on failure) and the `BLADE_GET_ADDR` query returns
`addrRet` (address 7, `errno` 5 on failure). -/
def envQueries (dir : List (List Char)) (busRet addrRet : Int) : Env where
  sys := fun _ c =>
    match c with
    | .open_dev inst => ⟨10 + inst, 0, 0, 0⟩
    | .malloc => ⟨1, 0, 0, 0⟩
    | .ioctl _ .BLADE_GET_BUS _ _ => ⟨busRet, 5, 3, 0⟩
    | .ioctl _ .BLADE_GET_ADDR _ _ => ⟨addrRet, 5, 7, 0⟩
    | _ => ⟨0, 0, 0, 0⟩
  dir := dir

/-- An environment with the given directory in which everything succeeds,
except that the device node of instance 1 can no longer be opened once
`late` calls have been made. -/
def envSecondGoesAway (dir : List (List Char)) (late : Nat) : Env where
  sys := fun log c =>
    match c with
    | .open_dev inst =>
      if inst = 1 ∧ late ≤ log.length then ⟨-1, 2, 0, 0⟩ else ⟨10 + inst, 0, 0, 0⟩
    | .malloc => ⟨1, 0, 0, 0⟩
    | _ => ⟨0, 0, 0, 0⟩
  dir := dir

/-- The directory entry `bladerf<suffix>`. -/
def entry (suffix : List Char) : List Char := BLADERF_DEV_PFX ++ suffix

/-- The suffixes that `strtol` converts completely to a non-negative `long`:
optional white space, an optional sign, and a non-empty run of decimal digits
with nothing after it; after `-` the value is zero, otherwise it is at most
`LONG_MAX`, and `LONG_MAX` itself only when `errno` was not `ERANGE` on
entry. -/
def AcceptedSuffix (errno : Int) (suffix : List Char) : Prop :=
  ∃ ws sign ds, suffix = ws ++ sign ++ ds ∧ (∀ ch ∈ ws, isspace ch = true) ∧
    (sign = [] ∨ sign = [ '+'] ∨ sign = [ '-']) ∧
    ds ≠ [] ∧ (∀ ch ∈ ds, isdigit ch = true) ∧
    (sign = [ '-'] → dec_value ds = 0) ∧
    (sign ≠ [ '-'] → (dec_value ds : Int) ≤ LONG_MAX ∧
      ¬ (errno = ERANGE ∧ (dec_value ds : Int) = LONG_MAX))

/-- The instance number `linux_probe` stores in `devinfo.instance` for a
directory entry. -/
def candInstance (c : Hdr) (d_name : List Char) : Nat := toUInt (str2instance c d_name)

/-- The write request that stores what a sub-bus read request reads. -/
def storingWrite : Ioctl → Option Ioctl
  | .BLADE_SI5338_READ => some .BLADE_SI5338_WRITE
  | .BLADE_LMS_READ => some .BLADE_LMS_WRITE
  | .BLADE_GPIO_READ => some .BLADE_GPIO_WRITE
  | _ => none

/-- The byte a mock channel holds at `addr` of the sub-bus written with `wcmd`
after the history `log`: the data byte of the latest write envelope submitted
at that address, `0` when there was none. -/
def mockStored (wcmd : Ioctl) (addr : Nat) (log : Log) : Nat :=
  log.foldl (fun acc e =>
    match e.call with
    | .ioctl _ cmd a d => if cmd = wcmd ∧ a = addr then d else acc
    | _ => acc) 0

/-- The mock control channel: every command succeeds; per sub-bus it stores the
data byte of each write envelope at the submitted address, and the data byte
it hands back for a read envelope is the byte stored at that address. -/
def mockChannel : Env where
  sys := fun log c =>
    match c with
    | .ioctl _ cmd addr _ =>
      match storingWrite cmd with
      | some wcmd => ⟨0, 0, (mockStored wcmd addr log : Nat), 0⟩
      | none => ⟨0, 0, 0, 0⟩
    | _ => ⟨0, 0, 0, 0⟩
  dir := []

/-- The four byte-lane sub-commands of a value `V` on the request `cmd`: lane
`i` carries `b_i = (V >> (8*i)) & 0xFF` at address `i`. -/
def laneCommands (fd : Int) (cmd : Ioctl) (V : Nat) : List Call :=
  (List.range 4).map (fun i => .ioctl fd cmd i ((V >>> (8 * i)) &&& 0xFF))

/-- What the spec says of the sub-commands `tr` issued for the lanes `lanes` and
of the returned status: the calls are a leading part of `lanes`; they are some
sub-commands that succeeded, followed either by nothing, in which case all lanes
were issued and the status is `0`, or by exactly one sub-command that failed,
in which case the status is not `0`. -/
def LanePrefix (lanes : List Call) (tr : Log) (status : Int) : Prop :=
  tr.map (fun e => e.call) <+: lanes ∧
  ∃ ok bad, tr = ok ++ bad ∧ (∀ e ∈ ok, e.reply.ret = 0) ∧
    ((bad = [] ∧ ok.length = lanes.length ∧ status = 0) ∨
      (∃ e, bad = [e] ∧ e.reply.ret ≠ 0 ∧ status ≠ 0))

/-- The value the loop of `linux_gpio_read` builds from the bytes `byte i` it
is handed for the lanes `i`, `i + 1`, ..., with `k` lanes left and `rval` built
so far. -/
def assembleLanes (byte : Nat → Nat) : Nat → Nat → Nat → Nat
  | 0, _, rval => rval
  | k + 1, i, rval =>
    assembleLanes byte k (i + 1) ((rval ||| ((byte i % 256) <<< (i * 8))) % 4294967296)

/-- An environment in which the sub-command for byte lane 2 times out and
every other call succeeds. -/
def envLaneFails : Env where
  sys := fun _ c =>
    match c with
    | .ioctl _ _ 2 _ => ⟨-1, 110, 0, 0⟩
    | _ => ⟨0, 0, 0, 0⟩
  dir := []

/-! ## Theorems -/

@[simp] theorem Env.call_fst (env : Env) (log : Log) (c : Call) :
    (env.call log c).1 = env.sys log c := rfl

@[simp] theorem Env.call_snd (env : Env) (log : Log) (c : Call) :
    (env.call log c).2 = log ++ [⟨c, env.sys log c⟩] := rfl

theorem countIoctl_append (cmd : Ioctl) (a b : Log) :
    countIoctl cmd (a ++ b) = countIoctl cmd a + countIoctl cmd b := by
  induction a with
  | nil => simp [countIoctl]
  | cons e a ih =>
    obtain ⟨call, reply⟩ := e
    cases call <;> simp [countIoctl, ih, Nat.add_assoc]

theorem log_append_one (log : Log) (a : Event) (tr : Log) :
    log ++ [a] ++ tr = log ++ (a :: tr) := by simp

theorem log_append_two (log : Log) (a b : Event) (tr : Log) :
    log ++ [a] ++ [b] ++ tr = log ++ (a :: b :: tr) := by simp

/-! ### FPGA loading: what each phase adds to the log -/

theorem load_fpga_write_facts (c : Hdr) (env : Env) (fd : Int) (image_size to_write : Nat) :
    ∀ (fuel written : Nat) (log : Log) (res : Except Int Nat) (log' : Log),
      load_fpga_write c env fd image_size to_write fuel written log = some (res, log') →
      ∃ tr, log' = log ++ tr ∧ StreamFacts c res tr := by
  intro fuel
  induction fuel with
  | zero => intro written log res log' h; simp [load_fpga_write] at h
  | succ fuel ih =>
    intro written log res log' h
    simp only [load_fpga_write, Env.call_fst, Env.call_snd] at h
    split at h
    · rename_i hneg
      simp only [Option.some.injEq, Prod.mk.injEq] at h
      obtain ⟨rfl, rfl⟩ := h
      refine ⟨[_, _], log_append_one _ _ _, ?_⟩
      simp [StreamFacts, pollFailed, writeFailed, countIoctl, hneg]
    · rename_i hneg
      split at h
      · obtain ⟨tr, rfl, hf⟩ := ih _ _ _ _ h
        refine ⟨_ :: tr, log_append_one _ _ _, ?_⟩
        obtain ⟨hp, hm⟩ := hf
        refine ⟨by simp [pollFailed, hp], ?_⟩
        cases res with
        | ok w => simpa [countIoctl, writeFailed, endFailed, hneg] using hm
        | error e => simpa [countIoctl, writeFailed, endFailed, hneg] using hm
      · simp only [Option.some.injEq, Prod.mk.injEq] at h
        obtain ⟨rfl, rfl⟩ := h
        refine ⟨[_], rfl, ?_⟩
        simp [StreamFacts, pollFailed, writeFailed, endFailed, countIoctl, hneg]

theorem StreamFacts.append_ok (c : Hdr) (w : Nat) (res : Except Int Nat) (a b : Log)
    (ha : StreamFacts c (.ok w) a) (hb : StreamFacts c res b) : StreamFacts c res (a ++ b) := by
  obtain ⟨hp, h0, hw, he⟩ := ha
  obtain ⟨hp', hm⟩ := hb
  refine ⟨by simp [hp, hp'], ?_⟩
  cases res with
  | ok w' =>
    obtain ⟨h0', hw', he'⟩ := hm
    exact ⟨by simp [countIoctl_append, h0, h0'], by simp [hw, hw'], by simp [he, he']⟩
  | error e =>
    obtain ⟨rfl, h1, hw'⟩ := hm
    exact ⟨rfl, by simp [countIoctl_append, h0, h1], by simp [hw, hw']⟩

theorem load_fpga_stream_facts (c : Hdr) (env : Env) (fd : Int) (image_size : Nat) :
    ∀ (fuel written : Nat) (log : Log) (res : Except Int Nat) (log' : Log),
      load_fpga_stream c env fd image_size fuel written log = some (res, log') →
      ∃ tr, log' = log ++ tr ∧ StreamFacts c res tr := by
  intro fuel
  induction fuel with
  | zero => intro written log res log' h; simp [load_fpga_stream] at h
  | succ fuel ih =>
    intro written log res log' h
    simp only [load_fpga_stream] at h
    split at h
    · split at h
      · simp at h
      · rename_i e l hw
        simp only [Option.some.injEq, Prod.mk.injEq] at h
        obtain ⟨rfl, rfl⟩ := h
        exact load_fpga_write_facts c env fd image_size _ _ _ _ _ _ hw
      · rename_i w l hw
        obtain ⟨tr1, rfl, h1⟩ := load_fpga_write_facts c env fd image_size _ _ _ _ _ _ hw
        obtain ⟨tr2, rfl, h2⟩ := ih _ _ _ _ h
        exact ⟨tr1 ++ tr2, by simp, StreamFacts.append_ok c w res tr1 tr2 h1 h2⟩
    · simp only [Option.some.injEq, Prod.mk.injEq] at h
      obtain ⟨rfl, rfl⟩ := h
      exact ⟨[], by simp, by simp [StreamFacts, countIoctl]⟩

theorem load_fpga_poll_facts (c : Hdr) (env : Env) (dev : Bladerf) (end_time : Timeval)
    (hio : c.BLADERF_ERR_IO < 0) :
    ∀ (fuel : Nat) (timed_out : Bool) (log : Log) (ret : Int) (log' : Log),
      load_fpga_poll c env dev end_time fuel 0 timed_out log = some (ret, log') →
      ∃ tr, log' = log ++ tr ∧ PollFacts c ret tr := by
  intro fuel
  induction fuel with
  | zero => intro timed_out log ret log' h; simp [load_fpga_poll] at h
  | succ fuel ih =>
    intro timed_out log ret log' h
    simp only [load_fpga_poll, linux_is_fpga_configured, Env.call_fst, Env.call_snd] at h
    by_cases hq : (env.sys log (.ioctl dev.fd .BLADE_QUERY_FPGA_STATUS 0 0)).ret ≠ 0 ∨
        (env.sys log (.ioctl dev.fd .BLADE_QUERY_FPGA_STATUS 0 0)).out < 0 ∨
        (env.sys log (.ioctl dev.fd .BLADE_QUERY_FPGA_STATUS 0 0)).out > 1
    · simp only [hq, if_true, hio] at h
      have hne : ¬ (c.BLADERF_ERR_IO = 0) := by omega
      simp only [hne, false_and, if_false, Option.some.injEq, Prod.mk.injEq] at h
      obtain ⟨rfl, rfl⟩ := h
      refine ⟨[_], rfl, ?_⟩
      simp [PollFacts, countIoctl, writeFailed, endFailed, pollFailed, hq]
    · simp only [hq, if_false] at h
      have hge : ¬ ((env.sys log (.ioctl dev.fd .BLADE_QUERY_FPGA_STATUS 0 0)).out < 0) := by
        intro hlt; exact hq (Or.inr (Or.inl hlt))
      simp only [hge, if_false] at h
      split at h
      · obtain ⟨tr, rfl, h0, hw, he, hp⟩ := ih _ _ _ _ h
        refine ⟨_ :: _ :: tr, log_append_two _ _ _ _, ?_⟩
        refine ⟨by simpa [countIoctl] using h0, by simpa [writeFailed] using hw,
          by simpa [endFailed] using he, ?_⟩
        rcases hp with ⟨hr, hp⟩ | ⟨hr, hp⟩
        · exact Or.inl ⟨hr, by simp [hp]⟩
        · refine Or.inr ⟨hr, ?_⟩
          simp only [List.any_cons, hp, pollFailed, Bool.or_false]
          simpa using hq
      · simp only [Option.some.injEq, Prod.mk.injEq] at h
        obtain ⟨rfl, rfl⟩ := h
        refine ⟨[_, _], log_append_one _ _ _, ?_⟩
        refine ⟨by simp [countIoctl], by simp [writeFailed], by simp [endFailed], Or.inr ⟨rfl, ?_⟩⟩
        simp only [List.any_cons, List.any_nil, pollFailed, Bool.or_false]
        simpa using hq

theorem linux_end_fpga_programming_eq (c : Hdr) (env : Env) (fd : Int) (log : Log) :
    linux_end_fpga_programming c env fd log =
      (if (env.sys log (.ioctl fd .BLADE_END_PROG 0 0)).ret ≠ 0 then c.BLADERF_ERR_UNEXPECTED
        else 0,
      log ++ [⟨.ioctl fd .BLADE_END_PROG 0 0, env.sys log (.ioctl fd .BLADE_END_PROG 0 0)⟩]) := by
  simp only [linux_end_fpga_programming, Env.call_fst, Env.call_snd]
  split <;> rfl

@[simp] theorem writeFailed_ioctl (fd : Int) (cmd : Ioctl) (a d : Nat) (r : Reply) :
    writeFailed ⟨.ioctl fd cmd a d, r⟩ = false := rfl

@[simp] theorem writeFailed_usleep (n : Nat) (r : Reply) :
    writeFailed ⟨.usleep n, r⟩ = false := rfl

@[simp] theorem writeFailed_gettimeofday (r : Reply) :
    writeFailed ⟨.gettimeofday, r⟩ = false := rfl

@[simp] theorem pollFailed_begin (fd : Int) (a d : Nat) (r : Reply) :
    pollFailed ⟨.ioctl fd .BLADE_BEGIN_PROG a d, r⟩ = false := rfl

@[simp] theorem pollFailed_usleep (n : Nat) (r : Reply) :
    pollFailed ⟨.usleep n, r⟩ = false := rfl

@[simp] theorem pollFailed_gettimeofday (r : Reply) :
    pollFailed ⟨.gettimeofday, r⟩ = false := rfl

@[simp] theorem endFailed_begin (fd : Int) (a d : Nat) (r : Reply) :
    endFailed ⟨.ioctl fd .BLADE_BEGIN_PROG a d, r⟩ = false := rfl

@[simp] theorem endFailed_usleep (n : Nat) (r : Reply) :
    endFailed ⟨.usleep n, r⟩ = false := rfl

@[simp] theorem endFailed_gettimeofday (r : Reply) :
    endFailed ⟨.gettimeofday, r⟩ = false := rfl

/-- The last step of `linux_load_fpga`: one `BLADE_END_PROG`, whose failure is
the status only when `ret` was still `0`. -/
theorem load_fpga_end_facts (c : Hdr) (env : Env) (fd : Int) (l : Log) (r ret : Int)
    (log' : Log) (hun : c.BLADERF_ERR_UNEXPECTED < 0)
    (h : (if (linux_end_fpga_programming c env fd l).1 < 0 ∧ r = 0 then
        some ((linux_end_fpga_programming c env fd l).1, (linux_end_fpga_programming c env fd l).2)
      else some (r, (linux_end_fpga_programming c env fd l).2)) = some (ret, log')) :
    ∃ ev, log' = l ++ [ev] ∧ countIoctl .BLADE_END_PROG [ev] = 1 ∧ writeFailed ev = false ∧
      pollFailed ev = false ∧
      ret = if r = 0 then (if endFailed ev then c.BLADERF_ERR_UNEXPECTED else 0) else r := by
  refine ⟨⟨.ioctl fd .BLADE_END_PROG 0 0, env.sys l (.ioctl fd .BLADE_END_PROG 0 0)⟩, ?_⟩
  simp only [linux_end_fpga_programming_eq] at h
  by_cases hc : (env.sys l (.ioctl fd .BLADE_END_PROG 0 0)).ret = 0 <;>
  by_cases hr : r = 0 <;>
  simp only [hc, hr, hun, ne_eq, not_true_eq_false, not_false_eq_true, if_true, if_false,
    lt_self_iff_false, false_and, and_false, and_self, Option.some.injEq, Prod.mk.injEq] at h <;>
  obtain ⟨rfl, rfl⟩ := h <;>
  simp [countIoctl, writeFailed, pollFailed, endFailed, hc, hr]

/-- A returning run of `linux_load_fpga` whose begin-programming command
succeeded: the calls it adds hold exactly one `BLADE_END_PROG`, and the status
is the first error among them. -/
theorem linux_load_fpga_run (c : Hdr) (env : Env) (fuel : Nat)
    (dev : Bladerf) (image_size : Nat) (log : Log) (ret : Int) (log' : Log)
    (hio : c.BLADERF_ERR_IO < 0) (hun : c.BLADERF_ERR_UNEXPECTED < 0)
    (hb : (env.sys log (.ioctl dev.fd .BLADE_BEGIN_PROG 0 0)).ret = 0)
    (h : linux_load_fpga c env fuel dev image_size log = some (ret, log')) :
    ∃ tr, log' = log ++ tr ∧ countIoctl .BLADE_END_PROG tr = 1 ∧ ret = firstError c tr := by
  have hbegin : linux_begin_fpga_programming c env dev.fd log =
      (0, log ++ [⟨.ioctl dev.fd .BLADE_BEGIN_PROG 0 0,
        env.sys log (.ioctl dev.fd .BLADE_BEGIN_PROG 0 0)⟩]) := by
    simp [linux_begin_fpga_programming, hb]
  simp only [linux_load_fpga, hbegin, lt_self_iff_false, if_false] at h
  split at h
  · simp at h
  · rename_i e l hs
    simp only [Option.some.injEq, Prod.mk.injEq] at h
    obtain ⟨rfl, rfl⟩ := h
    obtain ⟨tr, rfl, -, rfl, h1, hw⟩ := load_fpga_stream_facts c env dev.fd image_size _ _ _ _ _ hs
    refine ⟨_ :: tr, log_append_one _ _ _, by simpa [countIoctl] using h1, ?_⟩
    simp [firstError, hw]
  · rename_i w l hs
    obtain ⟨tr, rfl, hsp, h0, hsw, hse⟩ :=
      load_fpga_stream_facts c env dev.fd image_size _ _ _ _ _ hs
    simp only [Env.call_fst, Env.call_snd] at h
    split at h
    · simp at h
    · rename_i r l2 hp
      obtain ⟨tr2, rfl, hp0, hpw, hpe, hpp⟩ := load_fpga_poll_facts c env dev _ hio _ _ _ _ _ hp
      obtain ⟨ev, rfl, he1, hew, hep, hret⟩ := load_fpga_end_facts c env dev.fd _ r ret log' hun h
      refine ⟨_, by simp only [List.append_assoc]; rfl, ?_, ?_⟩
      · simpa [countIoctl, countIoctl_append, h0, hp0] using he1
      · have hne : ¬ c.BLADERF_ERR_IO = 0 := by omega
        rcases hpp with ⟨rfl, hpp⟩ | ⟨rfl, hpp⟩ <;>
        simp [firstError, hsw, hpw, hsp, hse, hpe, hpp, hew, hep, hret, hne]

/-! ### FPGA loading: a channel that accepts every write in full -/

theorem writesOf_append (a b : Log) : writesOf (a ++ b) = writesOf a ++ writesOf b := by
  induction a with
  | nil => simp [writesOf]
  | cons e a ih =>
    obtain ⟨call, reply⟩ := e
    cases call <;> simp [writesOf, ih]

/-- The inner loop over a channel that accepts every write in full: `k + 1`
calls of `to_write` bytes each, at offsets `to_write` apart, where `k + 1` is
the number of steps of `to_write` needed to reach `image_size`. -/
theorem load_fpga_write_full_accept (c : Hdr) (env : Env) (fd : Int) (image_size to_write : Nat)
    (hfull : ∀ l off len, (env.sys l (.write fd off len)).ret = (len : Int)) :
    ∀ (k fuel written : Nat) (log : Log),
      written + k * to_write < image_size →
      image_size ≤ written + (k + 1) * to_write →
      written + (k + 1) * to_write < 18446744073709551616 →
      k < fuel →
      ∃ log', load_fpga_write c env fd image_size to_write fuel written log =
          some (.ok (written + (k + 1) * to_write), log') ∧
        writesOf log' = writesOf log ++
          (List.range (k + 1)).map (fun i => (written + i * to_write, to_write)) := by
  intro k
  induction k with
  | zero =>
    intro fuel written log _ hge hlt hfuel
    obtain ⟨f, rfl⟩ : ∃ f, fuel = f + 1 := ⟨fuel - 1, by omega⟩
    simp only [Nat.zero_add, Nat.one_mul] at hge hlt
    have hnl : ¬ (written + to_write < image_size) := by omega
    refine ⟨log ++ [⟨.write fd written to_write, env.sys log (.write fd written to_write)⟩],
      ?_, ?_⟩
    · simp only [load_fpga_write, Env.call_fst, Env.call_snd, hfull, Int.toNat_ofNat,
        Nat.mod_eq_of_lt hlt, hnl, if_false]
      simp
    · simp [writesOf_append, writesOf, List.range_succ]
  | succ k ih =>
    intro fuel written log hlt1 hge hlt hfuel
    obtain ⟨f, rfl⟩ : ∃ f, fuel = f + 1 := ⟨fuel - 1, by omega⟩
    have e1 : written + (k + 1) * to_write = written + to_write + k * to_write := by ring
    have e2 : written + (k + 1 + 1) * to_write = written + to_write + (k + 1) * to_write := by
      ring
    have hw : written + to_write < image_size := by
      have : 0 ≤ k * to_write := Nat.zero_le _
      omega
    have hw2 : written + to_write < 18446744073709551616 := by
      have : 0 ≤ (k + 1) * to_write := Nat.zero_le _
      omega
    obtain ⟨log', hrun, hwr⟩ := ih f (written + to_write)
      (log ++ [⟨.write fd written to_write, env.sys log (.write fd written to_write)⟩])
      (by omega) (by omega) (by omega) (by omega)
    refine ⟨log', ?_, ?_⟩
    · simp only [load_fpga_write, Env.call_fst, Env.call_snd, hfull, Int.toNat_ofNat,
        Nat.mod_eq_of_lt hw2, hw, if_true]
      simp only [Int.natCast_nonneg, not_lt.mpr, if_false]
      rw [hrun, e2]
    · have hl : (List.range (k + 1 + 1)).map (fun i => (written + i * to_write, to_write)) =
          (written, to_write) ::
            (List.range (k + 1)).map (fun i => (written + to_write + i * to_write, to_write)) := by
        rw [List.range_succ_eq_map (k + 1), List.map_cons, List.map_map]
        simp only [Nat.zero_mul, Nat.add_zero, List.cons.injEq, true_and]
        apply List.map_congr_left
        intro i _
        simp only [Function.comp_apply, Prod.mk.injEq, and_true]
        rw [Nat.succ_mul]
        omega
      rw [hwr, writesOf_append, hl]
      simp [writesOf]

/-- The streaming phase over a channel that accepts every write in full: it
ends after `ceil(image_size / 1024)` write calls, the `i`-th at offset
`1024 * i`, each asking for `min_sz(1024, image_size)` bytes. -/
theorem load_fpga_stream_full_accept (c : Hdr) (env : Env) (fd : Int) (image_size : Nat)
    (hfull : ∀ l off len, (env.sys l (.write fd off len)).ret = (len : Int))
    (hsize : image_size + 1024 ≤ 18446744073709551616) (fuel : Nat) (log : Log)
    (hfuel : (image_size + 1023) / 1024 + 1 < fuel) :
    ∃ w log', load_fpga_stream c env fd image_size fuel 0 log = some (.ok w, log') ∧
      writesOf log' = writesOf log ++
        (List.range ((image_size + 1023) / 1024)).map
          (fun i => (i * 1024, min_sz 1024 image_size)) := by
  obtain ⟨f, rfl⟩ : ∃ f, fuel = f + 1 + 1 := ⟨fuel - 2, by omega⟩
  by_cases h0 : image_size = 0
  · subst h0
    exact ⟨0, log, by simp [load_fpga_stream], by simp⟩
  · have hpos : 0 < image_size := Nat.pos_of_ne_zero h0
    by_cases hsmall : image_size ≤ 1024
    · have htw : min_sz 1024 image_size = image_size := by
        unfold min_sz
        split <;> omega
      obtain ⟨log', hrun, hwr⟩ := load_fpga_write_full_accept c env fd image_size image_size
        hfull 0 (f + 1) 0 log (by omega) (by omega) (by omega) (by omega)
      have hk : (image_size + 1023) / 1024 = 1 := by omega
      have hdone : ¬ (0 + (0 + 1) * image_size < image_size) := by omega
      refine ⟨0 + (0 + 1) * image_size, log', ?_, ?_⟩
      · simp only [load_fpga_stream, hpos, if_true, Nat.sub_zero, htw, hrun, hdone, if_false]
      · rw [hwr, hk, htw]
        simp [List.range_succ]
    · have htw : min_sz 1024 image_size = 1024 := by
        unfold min_sz
        split <;> omega
      obtain ⟨log', hrun, hwr⟩ := load_fpga_write_full_accept c env fd image_size 1024
        hfull ((image_size - 1) / 1024) (f + 1) 0 log (by omega) (by omega) (by omega)
        (by omega)
      have hk : (image_size + 1023) / 1024 = (image_size - 1) / 1024 + 1 := by omega
      have hdone : ¬ (0 + ((image_size - 1) / 1024 + 1) * 1024 < image_size) := by omega
      refine ⟨0 + ((image_size - 1) / 1024 + 1) * 1024, log', ?_, ?_⟩
      · simp only [load_fpga_stream, hpos, if_true, Nat.sub_zero, htw, hrun, hdone, if_false]
      · rw [hwr, hk, htw]
        simp

/-! ### FPGA loading: an FPGA that never reports "configured" -/

/-- The polling loop when every poll succeeds with "not configured" and the
clock is past the deadline from the `N`-th call on: with enough fuel it ends
with `ret = 0`. -/
theorem load_fpga_poll_times_out (c : Hdr) (env : Env) (dev : Bladerf) (end_time : Timeval)
    (hquery : ∀ l, (env.sys l (.ioctl dev.fd .BLADE_QUERY_FPGA_STATUS 0 0)).ret = 0 ∧
      (env.sys l (.ioctl dev.fd .BLADE_QUERY_FPGA_STATUS 0 0)).out = 0)
    (N : Nat)
    (hclock : ∀ l, N ≤ l.length →
      time_past end_time ⟨(env.sys l .gettimeofday).out, (env.sys l .gettimeofday).out2⟩ = true) :
    ∀ (fuel : Nat) (timed_out : Bool) (log : Log),
      0 < fuel → N < log.length + 2 * fuel →
      ∃ log', load_fpga_poll c env dev end_time fuel 0 timed_out log = some (0, log') := by
  intro fuel
  induction fuel with
  | zero => intro _ _ h; omega
  | succ f ih =>
    intro timed_out log _ hN
    have hq : linux_is_fpga_configured c env dev log =
        (0, log ++ [⟨.ioctl dev.fd .BLADE_QUERY_FPGA_STATUS 0 0,
          env.sys log (.ioctl dev.fd .BLADE_QUERY_FPGA_STATUS 0 0)⟩]) := by
      simp [linux_is_fpga_configured, (hquery log).1, (hquery log).2]
    have h00 : ¬ ((0 : Int) < 0) := by decide
    simp only [load_fpga_poll, hq, h00, if_false, Env.call_fst, Env.call_snd, true_and,
      and_true]
    split
    · rename_i hnot
      have hlen : ¬ (N ≤ (log ++ [(⟨.ioctl dev.fd .BLADE_QUERY_FPGA_STATUS 0 0,
          env.sys log (.ioctl dev.fd .BLADE_QUERY_FPGA_STATUS 0 0)⟩ : Event)]).length) := by
        intro hle
        rw [hclock _ hle] at hnot
        exact absurd hnot (by decide)
      simp only [List.length_append, List.length_singleton] at hlen
      apply ih
      · omega
      · simp only [List.length_append, List.length_singleton]
        omega
    · exact ⟨_, rfl⟩

/-! ### FPGA loading: more fuel does not change a result -/

theorem load_fpga_write_mono (c : Hdr) (env : Env) (fd : Int) (image_size to_write : Nat) :
    ∀ (fuel written : Nat) (log : Log) (r : Except Int Nat × Log),
      load_fpga_write c env fd image_size to_write fuel written log = some r →
      ∀ m, load_fpga_write c env fd image_size to_write (fuel + m) written log = some r := by
  intro fuel
  induction fuel with
  | zero => intro written log r h; simp [load_fpga_write] at h
  | succ f ih =>
    intro written log r h m
    rw [Nat.add_right_comm f 1 m]
    simp only [load_fpga_write] at h ⊢
    by_cases hneg : (env.call log (.write fd written to_write)).1.ret < 0
    · simp only [hneg, if_true] at h ⊢
      exact h
    · simp only [hneg, if_false] at h ⊢
      split
      · rename_i hlt
        simp only [hlt, if_true] at h
        exact ih _ _ _ h m
      · rename_i hlt
        simp only [hlt, if_false] at h
        exact h

theorem load_fpga_stream_mono (c : Hdr) (env : Env) (fd : Int) (image_size : Nat) :
    ∀ (fuel written : Nat) (log : Log) (r : Except Int Nat × Log),
      load_fpga_stream c env fd image_size fuel written log = some r →
      ∀ m, load_fpga_stream c env fd image_size (fuel + m) written log = some r := by
  intro fuel
  induction fuel with
  | zero => intro written log r h; simp [load_fpga_stream] at h
  | succ f ih =>
    intro written log r h m
    rw [Nat.add_right_comm f 1 m]
    simp only [load_fpga_stream] at h ⊢
    by_cases hlt : written < image_size
    · simp only [hlt, if_true] at h ⊢
      cases hw : load_fpga_write c env fd image_size (min_sz 1024 (image_size - written)) f
          written log with
      | none =>
        rw [hw] at h
        simp at h
      | some x =>
        rw [load_fpga_write_mono c env fd image_size _ f written log x hw m]
        rw [hw] at h
        obtain ⟨res, l⟩ := x
        cases res with
        | error e => exact h
        | ok w => exact ih _ _ _ h m
    · simp only [hlt, if_false] at h ⊢
      exact h

theorem load_fpga_poll_mono (c : Hdr) (env : Env) (dev : Bladerf) (end_time : Timeval) :
    ∀ (fuel : Nat) (ret : Int) (timed_out : Bool) (log : Log) (r : Int × Log),
      load_fpga_poll c env dev end_time fuel ret timed_out log = some r →
      ∀ m, load_fpga_poll c env dev end_time (fuel + m) ret timed_out log = some r := by
  intro fuel
  induction fuel with
  | zero => intro ret timed_out log r h; simp [load_fpga_poll] at h
  | succ f ih =>
    intro ret timed_out log r h m
    rw [Nat.add_right_comm f 1 m]
    simp only [load_fpga_poll] at h ⊢
    by_cases hneg : (linux_is_fpga_configured c env dev log).1 < 0
    · simp only [hneg, if_true] at h ⊢
      split
      · rename_i hc
        rw [if_pos hc] at h
        exact ih _ _ _ _ h m
      · rename_i hc
        rw [if_neg hc] at h
        exact h
    · simp only [hneg, if_false] at h ⊢
      split
      · rename_i hc
        rw [if_pos hc] at h
        exact ih _ _ _ _ h m
      · rename_i hc
        rw [if_neg hc] at h
        exact h

/-- A result of `linux_load_fpga` does not depend on the fuel: more fuel gives
the same status and the same log. -/
theorem linux_load_fpga_mono (c : Hdr) (env : Env) (fuel : Nat) (dev : Bladerf)
    (image_size : Nat) (log : Log) (r : Int × Log)
    (h : linux_load_fpga c env fuel dev image_size log = some r) (m : Nat) :
    linux_load_fpga c env (fuel + m) dev image_size log = some r := by
  simp only [linux_load_fpga] at h ⊢
  by_cases hb : (linux_begin_fpga_programming c env dev.fd log).1 < 0
  · simp only [hb, if_true] at h ⊢
    exact h
  · simp only [hb, if_false] at h ⊢
    cases hs : load_fpga_stream c env dev.fd image_size fuel 0
        (linux_begin_fpga_programming c env dev.fd log).2 with
    | none =>
      rw [hs] at h
      simp at h
    | some x =>
      rw [load_fpga_stream_mono c env dev.fd image_size fuel 0 _ x hs m]
      rw [hs] at h
      obtain ⟨res, l⟩ := x
      cases res with
      | error e => exact h
      | ok w =>
        simp only at h ⊢
        cases hp : load_fpga_poll c env dev
            ⟨(env.call (env.call l (.usleep 4000)).2 .gettimeofday).1.out + 1,
              (env.call (env.call l (.usleep 4000)).2 .gettimeofday).1.out2⟩ fuel 0 false
            (env.call (env.call l (.usleep 4000)).2 .gettimeofday).2 with
        | none =>
          rw [hp] at h
          simp at h
        | some y =>
          rw [load_fpga_poll_mono c env dev _ fuel 0 false _ y hp m]
          rw [hp] at h
          exact h

/-- A whole run in the time-out scenario: begin-programming succeeds, every
write is accepted in full, every poll succeeds with "not configured", the clock
eventually passes every deadline, and end-programming succeeds.  Then, with
enough fuel, `linux_load_fpga` returns `0`. -/
theorem linux_load_fpga_timeout_returns_zero (c : Hdr) (env : Env) (dev : Bladerf)
    (image_size : Nat) (log : Log)
    (hsize : image_size + 1024 ≤ 18446744073709551616)
    (hbegin : (env.sys log (.ioctl dev.fd .BLADE_BEGIN_PROG 0 0)).ret = 0)
    (hfull : ∀ l off len, (env.sys l (.write dev.fd off len)).ret = (len : Int))
    (hquery : ∀ l, (env.sys l (.ioctl dev.fd .BLADE_QUERY_FPGA_STATUS 0 0)).ret = 0 ∧
      (env.sys l (.ioctl dev.fd .BLADE_QUERY_FPGA_STATUS 0 0)).out = 0)
    (hclock : ∀ end_time, ∃ N, ∀ l, N ≤ l.length →
      time_past end_time ⟨(env.sys l .gettimeofday).out, (env.sys l .gettimeofday).out2⟩ = true)
    (hend : ∀ l, (env.sys l (.ioctl dev.fd .BLADE_END_PROG 0 0)).ret = 0) :
    ∃ fuel log', linux_load_fpga c env fuel dev image_size log = some (0, log') := by
  have hb : linux_begin_fpga_programming c env dev.fd log =
      (0, log ++ [⟨.ioctl dev.fd .BLADE_BEGIN_PROG 0 0,
        env.sys log (.ioctl dev.fd .BLADE_BEGIN_PROG 0 0)⟩]) := by
    simp [linux_begin_fpga_programming, hbegin]
  obtain ⟨w, l1, hs, -⟩ := load_fpga_stream_full_accept c env dev.fd image_size hfull hsize
    ((image_size + 1023) / 1024 + 2)
    (log ++ [⟨.ioctl dev.fd .BLADE_BEGIN_PROG 0 0,
      env.sys log (.ioctl dev.fd .BLADE_BEGIN_PROG 0 0)⟩]) (by omega)
  obtain ⟨N, hN⟩ := hclock ⟨(env.call (env.call l1 (.usleep 4000)).2 .gettimeofday).1.out + 1,
    (env.call (env.call l1 (.usleep 4000)).2 .gettimeofday).1.out2⟩
  obtain ⟨l2, hp⟩ := load_fpga_poll_times_out c env dev _ hquery N hN (N + 1) false
    (env.call (env.call l1 (.usleep 4000)).2 .gettimeofday).2 (by omega) (by omega)
  have hs' := load_fpga_stream_mono c env dev.fd image_size _ 0 _ _ hs (N + 1)
  have hp' := load_fpga_poll_mono c env dev _ (N + 1) 0 false _ _ hp
    ((image_size + 1023) / 1024 + 2)
  rw [Nat.add_comm (N + 1)] at hp'
  refine ⟨(image_size + 1023) / 1024 + 2 + (N + 1), ?_⟩
  have h00 : ¬ ((0 : Int) < 0) := by decide
  simp only [linux_load_fpga, hb, h00, if_false, hs', hp', linux_end_fpga_programming_eq, hend,
    ne_eq, not_true_eq_false, false_and]
  exact ⟨_, rfl⟩

/-! ### FPGA loading: the run returns -/

/-- The inner streaming loop returns when the channel makes progress: a failed
`write` ends it at once, and every other iteration either moves bytes or uses
up one of the finitely many zero-length results. -/
theorem load_fpga_write_returns (c : Hdr) (env : Env) (fd : Int) (image_size to_write : Nat)
    (hsize : image_size + 1024 ≤ 18446744073709551616)
    (htw : 0 < to_write) (htw' : to_write ≤ 1024)
    (hle : ∀ l off len, (env.sys l (.write fd off len)).ret ≤ (len : Int))
    (Z : Nat)
    (hz : ∀ l off len, Z ≤ l.length → 0 < len → (env.sys l (.write fd off len)).ret ≠ 0) :
    ∀ (fuel written : Nat) (log : Log),
      written < image_size → (Z - log.length) + (image_size - written) ≤ fuel →
      ∃ res log', load_fpga_write c env fd image_size to_write fuel written log
          = some (res, log') ∧
        ∀ w, res = .ok w → image_size ≤ w := by
  intro fuel
  induction fuel with
  | zero => intro written log hlt h; omega
  | succ f ih =>
    intro written log hlt hfuel
    have hle' := hle log written to_write
    simp only [load_fpga_write, Env.call_fst, Env.call_snd]
    by_cases hneg : (env.sys log (.write fd written to_write)).ret < 0
    · simp only [hneg, if_true]
      exact ⟨_, _, rfl, by intro w h; cases h⟩
    · simp only [hneg, if_false]
      have hmod : (written + (env.sys log (.write fd written to_write)).ret.toNat)
          % 18446744073709551616
          = written + (env.sys log (.write fd written to_write)).ret.toNat := by
        apply Nat.mod_eq_of_lt
        omega
      rw [hmod]
      by_cases hcont : written + (env.sys log (.write fd written to_write)).ret.toNat < image_size
      · simp only [hcont, if_true]
        apply ih _ _ hcont
        simp only [List.length_append, List.length_singleton]
        by_cases h0 : (env.sys log (.write fd written to_write)).ret = 0
        · have hlen : ¬ Z ≤ log.length := fun hZ => hz log written to_write hZ htw h0
          omega
        · omega
      · simp only [hcont, if_false]
        refine ⟨_, _, rfl, ?_⟩
        intro w h
        simp only [Except.ok.injEq] at h
        omega

/-- The streaming phase returns when the channel makes progress. -/
theorem load_fpga_stream_returns (c : Hdr) (env : Env) (fd : Int) (image_size : Nat)
    (hsize : image_size + 1024 ≤ 18446744073709551616)
    (hle : ∀ l off len, (env.sys l (.write fd off len)).ret ≤ (len : Int))
    (Z : Nat)
    (hz : ∀ l off len, Z ≤ l.length → 0 < len → (env.sys l (.write fd off len)).ret ≠ 0)
    (fuel written : Nat) (log : Log)
    (hfuel : (Z - log.length) + (image_size - written) + 2 ≤ fuel) :
    ∃ r, load_fpga_stream c env fd image_size fuel written log = some r := by
  obtain ⟨g, rfl⟩ : ∃ g, fuel = g + 1 + 1 := ⟨fuel - 2, by omega⟩
  simp only [load_fpga_stream]
  by_cases hlt : written < image_size
  · simp only [hlt, if_true]
    have htw : 0 < min_sz 1024 (image_size - written) := by
      unfold min_sz
      split <;> omega
    have htw' : min_sz 1024 (image_size - written) ≤ 1024 := by
      unfold min_sz
      split <;> omega
    obtain ⟨res, l1, hw, hok⟩ := load_fpga_write_returns c env fd image_size _ hsize htw htw'
      hle Z hz (g + 1) written log hlt (by omega)
    rw [hw]
    cases res with
    | error e => exact ⟨_, rfl⟩
    | ok w =>
      have hge : ¬ w < image_size := by
        have := hok w rfl
        omega
      simp only [load_fpga_stream, hge, if_false]
      exact ⟨_, rfl⟩
  · simp only [hlt, if_false]
    exact ⟨_, rfl⟩

theorem linux_is_fpga_configured_snd (c : Hdr) (env : Env) (dev : Bladerf) (log : Log) :
    (linux_is_fpga_configured c env dev log).2 =
      log ++ [⟨.ioctl dev.fd .BLADE_QUERY_FPGA_STATUS 0 0,
        env.sys log (.ioctl dev.fd .BLADE_QUERY_FPGA_STATUS 0 0)⟩] := by
  simp only [linux_is_fpga_configured, Env.call_fst, Env.call_snd]
  split <;> rfl

/-- The polling loop returns when, from the `N`-th call on, a poll either
reports something other than "not configured" or is followed by a clock reading
past the deadline. -/
theorem load_fpga_poll_returns (c : Hdr) (env : Env) (dev : Bladerf) (end_time : Timeval)
    (N : Nat)
    (hend : ∀ l, N ≤ l.length →
      (linux_is_fpga_configured c env dev l).1 ≠ 0 ∨
      time_past end_time
        ⟨(env.sys (linux_is_fpga_configured c env dev l).2 .gettimeofday).out,
          (env.sys (linux_is_fpga_configured c env dev l).2 .gettimeofday).out2⟩ = true) :
    ∀ (fuel : Nat) (ret : Int) (timed_out : Bool) (log : Log),
      0 < fuel → N + 2 ≤ log.length + 2 * fuel →
      ∃ r, load_fpga_poll c env dev end_time fuel ret timed_out log = some r := by
  intro fuel
  induction fuel with
  | zero => intro _ _ _ h; omega
  | succ f ih =>
    intro ret timed_out log _ hN
    have hq2 : ((linux_is_fpga_configured c env dev log).2).length = log.length + 1 := by
      rw [linux_is_fpga_configured_snd]
      simp
    simp only [load_fpga_poll, Env.call_fst, Env.call_snd]
    by_cases hneg : (linux_is_fpga_configured c env dev log).1 < 0
    · simp only [hneg, if_true]
      split
      · rename_i hc
        omega
      · exact ⟨_, rfl⟩
    · simp only [hneg, if_false]
      split
      · rename_i hc
        have hlen : ¬ N ≤ log.length := by
          intro hle
          rcases hend log hle with h | h
          · exact h hc.1
          · rw [h] at hc
            simp at hc
        apply ih
        · omega
        · simp only [List.length_append, List.length_singleton, hq2]
          omega
      · exact ⟨_, rfl⟩

/-- With begin-programming succeeding, a control channel that makes progress
and a polling that ends, `linux_load_fpga` returns: enough fuel gives a status
and a log, the same for every larger fuel, and the status is the first error
among the calls of the run. -/
theorem linux_load_fpga_returns (c : Hdr) (env : Env) (dev : Bladerf) (image_size : Nat)
    (log : Log) (hio : c.BLADERF_ERR_IO < 0) (hun : c.BLADERF_ERR_UNEXPECTED < 0)
    (hb : (env.sys log (.ioctl dev.fd .BLADE_BEGIN_PROG 0 0)).ret = 0)
    (hsize : image_size + 1024 ≤ 18446744073709551616)
    (hw : WritesProgress env dev.fd) (hp : PollingEnds c env dev) :
    ∃ fuel tr, ∀ m, linux_load_fpga c env (fuel + m) dev image_size log =
      some (firstError c tr, log ++ tr) := by
  obtain ⟨hle, Z, hz⟩ := hw
  have hbegin : linux_begin_fpga_programming c env dev.fd log =
      (0, log ++ [⟨.ioctl dev.fd .BLADE_BEGIN_PROG 0 0,
        env.sys log (.ioctl dev.fd .BLADE_BEGIN_PROG 0 0)⟩]) := by
    simp [linux_begin_fpga_programming, hb]
  have h00 : ¬ ((0 : Int) < 0) := by decide
  have key : ∃ fuel r, linux_load_fpga c env fuel dev image_size log = some r := by
    obtain ⟨⟨res, l1⟩, hs⟩ := load_fpga_stream_returns c env dev.fd image_size hsize hle Z hz
      (Z + image_size + 2) 0
      (log ++ [⟨.ioctl dev.fd .BLADE_BEGIN_PROG 0 0,
        env.sys log (.ioctl dev.fd .BLADE_BEGIN_PROG 0 0)⟩]) (by omega)
    cases res with
    | error e =>
      refine ⟨Z + image_size + 2, (e, l1), ?_⟩
      simp only [linux_load_fpga, hbegin, h00, if_false, hs]
    | ok w =>
      have hN : ∃ N, ∀ l, N ≤ l.length →
          (linux_is_fpga_configured c env dev l).1 ≠ 0 ∨
          time_past ⟨(env.call (env.call l1 (.usleep 4000)).2 .gettimeofday).1.out + 1,
              (env.call (env.call l1 (.usleep 4000)).2 .gettimeofday).1.out2⟩
            ⟨(env.sys (linux_is_fpga_configured c env dev l).2 .gettimeofday).out,
              (env.sys (linux_is_fpga_configured c env dev l).2 .gettimeofday).out2⟩ = true := by
        rcases hp with hclock | ⟨N, hstat⟩
        · obtain ⟨N, hN⟩ := hclock
            ⟨(env.call (env.call l1 (.usleep 4000)).2 .gettimeofday).1.out + 1,
              (env.call (env.call l1 (.usleep 4000)).2 .gettimeofday).1.out2⟩
          refine ⟨N, fun l hl => Or.inr (hN _ ?_)⟩
          rw [linux_is_fpga_configured_snd]
          simp only [List.length_append, List.length_singleton]
          omega
        · exact ⟨N, fun l hl => Or.inl (hstat l hl)⟩
      obtain ⟨N, hN⟩ := hN
      obtain ⟨r, hpoll⟩ := load_fpga_poll_returns c env dev _ N hN (N + 2) 0 false
        (env.call (env.call l1 (.usleep 4000)).2 .gettimeofday).2 (by omega) (by omega)
      have hs' := load_fpga_stream_mono c env dev.fd image_size _ 0 _ _ hs (N + 2)
      have hp' := load_fpga_poll_mono c env dev _ (N + 2) 0 false _ _ hpoll
        (Z + image_size + 2)
      rw [Nat.add_comm (N + 2)] at hp'
      refine ⟨Z + image_size + 2 + (N + 2), ?_⟩
      simp only [linux_load_fpga, hbegin, h00, if_false, hs', hp']
      split <;> exact ⟨_, rfl⟩
  obtain ⟨fuel, ⟨ret, log'⟩, h⟩ := key
  obtain ⟨tr, rfl, -, rfl⟩ :=
    linux_load_fpga_run c env fuel dev image_size log ret log' hio hun hb h
  exact ⟨fuel, tr, fun m => linux_load_fpga_mono c env fuel dev image_size log _ h m⟩

/-- The three error paths on concrete runs over a 1500-byte image: a failed
second `write` returns `BLADERF_ERR_IO` (the failing `BLADE_END_PROG` that
follows does not replace it); a failed poll returns `BLADERF_ERR_IO` (the
failing `BLADE_END_PROG` does not replace it); a failing `BLADE_END_PROG`
after a clean stream and a "configured" poll returns
`BLADERF_ERR_UNEXPECTED`. -/
theorem linux_load_fpga_error_runs :
    (linux_load_fpga hdr0 envWriteFails 5 ⟨3, none⟩ 1500 []).map Prod.fst = some (-5) ∧
    (linux_load_fpga hdr0 envPollFails 5 ⟨3, none⟩ 1500 []).map Prod.fst = some (-5) ∧
    (linux_load_fpga hdr0 envEndFails 5 ⟨3, none⟩ 1500 []).map Prod.fst = some (-1) := by
  refine ⟨by decide, by decide, by decide⟩

/-- A control channel that reports zero bytes for every `write` keeps
`linux_load_fpga` in its streaming loop: no fuel gives a result. -/
theorem load_fpga_write_stalls (fd : Int) (image_size to_write : Nat) :
    ∀ (fuel : Nat) (log : Log), 0 < image_size →
      load_fpga_write hdr0 envStalls fd image_size to_write fuel 0 log = none := by
  intro fuel
  induction fuel with
  | zero => intro log _; rfl
  | succ f ih =>
    intro log hpos
    have h00 : ¬ ((0 : Int) < 0) := by decide
    simp only [load_fpga_write, Env.call_fst, Env.call_snd, envStalls, h00, if_false,
      Int.toNat_zero, Nat.add_zero, Nat.zero_mod, hpos, if_true]
    exact ih _ hpos

/-- The run over that channel: `linux_load_fpga` never returns, whatever the
fuel. -/
theorem linux_load_fpga_stalls (fuel : Nat) :
    linux_load_fpga hdr0 envStalls fuel ⟨3, none⟩ 1500 [] = none := by
  have hs : load_fpga_stream hdr0 envStalls 3 1500 fuel 0
      [⟨.ioctl 3 .BLADE_BEGIN_PROG 0 0, ⟨0, 0, 0, 0⟩⟩] = none := by
    cases fuel with
    | zero => rfl
    | succ f =>
      simp only [load_fpga_stream, load_fpga_write_stalls 3 1500 _ f _ (by decide)]
      rfl
  have hbegin : linux_begin_fpga_programming hdr0 envStalls 3 [] =
      (0, [⟨.ioctl 3 .BLADE_BEGIN_PROG 0 0, ⟨0, 0, 0, 0⟩⟩]) := rfl
  have h00 : ¬ ((0 : Int) < 0) := by decide
  simp only [linux_load_fpga, hbegin, h00, if_false, hs]

/-! ### FPGA loading: the claims -/

/-- C1 (evaluation at the failing input): on an image of 1500 bytes, over a
control channel that accepts every write in full, `linux_load_fpga` succeeds
after two `write` calls, at offsets 0 and 1024, each asking for 1024 bytes: the
second call asks for the 548 bytes after the end of the image, and the
requested lengths add up to 2048, not 1500. -/
theorem linux_load_fpga_requests_past_image_end :
    ∃ log, linux_load_fpga hdr0 envFull 3 ⟨3, none⟩ 1500 [] = some (0, log) ∧
      writesOf log = [(0, 1024), (1024, 1024)] ∧
      ((writesOf log).map Prod.snd).sum = 2048 := by
  refine ⟨_, rfl, ?_, ?_⟩ <;> decide

/-- C2: in every run of `linux_load_fpga` that returns, if the
begin-programming command fails the log holds that command and nothing else (no
write, no poll, no end-programming); if it succeeds, `BLADE_END_PROG` is issued
exactly once, however streaming and polling ended. -/
theorem linux_load_fpga_end_prog_exactly_once (c : Hdr) (env : Env) (fuel : Nat)
    (dev : Bladerf) (image_size : Nat) (log : Log) (ret : Int) (log' : Log)
    (hio : c.BLADERF_ERR_IO < 0) (hun : c.BLADERF_ERR_UNEXPECTED < 0)
    (h : linux_load_fpga c env fuel dev image_size log = some (ret, log')) :
    ((env.sys log (.ioctl dev.fd .BLADE_BEGIN_PROG 0 0)).ret ≠ 0 →
      log' = log ++ [⟨.ioctl dev.fd .BLADE_BEGIN_PROG 0 0,
        env.sys log (.ioctl dev.fd .BLADE_BEGIN_PROG 0 0)⟩]) ∧
    ((env.sys log (.ioctl dev.fd .BLADE_BEGIN_PROG 0 0)).ret = 0 →
      ∃ tr, log' = log ++ tr ∧ countIoctl .BLADE_END_PROG tr = 1) := by
  constructor
  · intro hb
    simp only [linux_load_fpga, linux_begin_fpga_programming, Env.call_fst, Env.call_snd, hb,
      ne_eq, not_false_eq_true, if_true, hun, Option.some.injEq, Prod.mk.injEq] at h
    exact h.2.symm
  · intro hb
    obtain ⟨tr, hlog, hcount, -⟩ :=
      linux_load_fpga_run c env fuel dev image_size log ret log' hio hun hb h
    exact ⟨tr, hlog, hcount⟩

/-- Witness for C2: a run in which the second write fails; it returns, and
`BLADE_END_PROG` was issued once. -/
theorem linux_load_fpga_end_prog_exactly_once_witness :
    ∃ ret log', linux_load_fpga hdr0 envWriteFails 5 ⟨3, none⟩ 1500 [] = some (ret, log') ∧
      ∃ tr, log' = [] ++ tr ∧ countIoctl .BLADE_END_PROG tr = 1 :=
  ⟨_, _, rfl, (linux_load_fpga_end_prog_exactly_once hdr0 envWriteFails 5 ⟨3, none⟩ 1500 [] _ _
    (by decide) (by decide) rfl).2 rfl⟩

/-- C3: when begin-programming succeeds, the status `linux_load_fpga` returns
is the first error encountered: `BLADERF_ERR_IO` if a write returned a negative
length, otherwise `BLADERF_ERR_IO` (what `linux_is_fpga_configured` returns) if
a poll failed, otherwise `BLADERF_ERR_UNEXPECTED` if end-programming failed,
otherwise `0`; so a run that only times out returns `0`, and a failing
end-programming never replaces an earlier error.  This holds of every run that
returns, whatever the environment (first part); and the run does return, with
that status, for every fuel from some bound on, when the image is no longer
than `2^64 - 1024` bytes, the control channel makes progress and the polling
ends (second part): the loops of the C function have no other way of going on
for ever. -/
theorem linux_load_fpga_returns_first_error (c : Hdr) (env : Env)
    (dev : Bladerf) (image_size : Nat) (log : Log)
    (hio : c.BLADERF_ERR_IO < 0) (hun : c.BLADERF_ERR_UNEXPECTED < 0)
    (hb : (env.sys log (.ioctl dev.fd .BLADE_BEGIN_PROG 0 0)).ret = 0) :
    (∀ fuel ret log', linux_load_fpga c env fuel dev image_size log = some (ret, log') →
      ∃ tr, log' = log ++ tr ∧
        (tr.any writeFailed = true → ret = c.BLADERF_ERR_IO) ∧
        (tr.any writeFailed = false → tr.any pollFailed = true → ret = c.BLADERF_ERR_IO) ∧
        (tr.any writeFailed = false → tr.any pollFailed = false → tr.any endFailed = true →
          ret = c.BLADERF_ERR_UNEXPECTED) ∧
        (tr.any writeFailed = false → tr.any pollFailed = false → tr.any endFailed = false →
          ret = 0)) ∧
    (image_size + 1024 ≤ 18446744073709551616 → WritesProgress env dev.fd →
      PollingEnds c env dev →
      ∃ fuel tr, ∀ m, linux_load_fpga c env (fuel + m) dev image_size log =
        some (firstError c tr, log ++ tr)) := by
  constructor
  · intro fuel ret log' h
    obtain ⟨tr, hlog, -, hret⟩ :=
      linux_load_fpga_run c env fuel dev image_size log ret log' hio hun hb h
    refine ⟨tr, hlog, ?_, ?_, ?_, ?_⟩
    · intro hw; simp [hret, firstError, hw]
    · intro hw hp; simp [hret, firstError, hw, hp]
    · intro hw hp he; simp [hret, firstError, hw, hp, he]
    · intro hw hp he; simp [hret, firstError, hw, hp, he]
  · intro hsize hw hp
    exact linux_load_fpga_returns c env dev image_size log hio hun hb hsize hw hp

/-- Witness for C3: a run whose second poll fails and whose end-programming
fails as well returns `BLADERF_ERR_IO`, and it returns for every fuel from some
bound on; a run in which the FPGA never reports "configured" and the clock
passes the deadline returns `0` after four polls. -/
theorem linux_load_fpga_returns_first_error_witness :
    (∃ tr, linux_load_fpga hdr0 envPollFails 5 ⟨3, none⟩ 1500 [] = some (-5, tr) ∧
      tr.any writeFailed = false ∧ tr.any pollFailed = true ∧ tr.any endFailed = true) ∧
    (∃ fuel tr, ∀ m, linux_load_fpga hdr0 envPollFails (fuel + m) ⟨3, none⟩ 1500 [] =
      some (firstError hdr0 tr, [] ++ tr)) ∧
    (∃ log', linux_load_fpga hdr0 envTimeout 5 ⟨3, none⟩ 1500 [] = some (0, log') ∧
      countIoctl .BLADE_QUERY_FPGA_STATUS log' = 4 ∧
      ∃ tr, log' = [] ++ tr ∧
      (tr.any writeFailed = true → (0 : Int) = hdr0.BLADERF_ERR_IO) ∧
      (tr.any writeFailed = false → tr.any pollFailed = true → (0 : Int) = hdr0.BLADERF_ERR_IO) ∧
      (tr.any writeFailed = false → tr.any pollFailed = false → tr.any endFailed = true →
        (0 : Int) = hdr0.BLADERF_ERR_UNEXPECTED) ∧
      (tr.any writeFailed = false → tr.any pollFailed = false → tr.any endFailed = false →
        (0 : Int) = 0)) :=
  ⟨⟨_, rfl, by decide, by decide, by decide⟩,
    (linux_load_fpga_returns_first_error hdr0 envPollFails ⟨3, none⟩ 1500 []
      (by decide) (by decide) rfl).2 (by decide)
      ⟨fun l off len => by simp [envPollFails],
        0, fun l off len _ hlen => by simp [envPollFails]; omega⟩
      (Or.inr ⟨7, fun l hl => by
        have h7 : ¬ l.length < 7 := by omega
        simp [linux_is_fpga_configured, envPollFails, h7]
        decide⟩),
    ⟨_, rfl, by decide,
      (linux_load_fpga_returns_first_error hdr0 envTimeout ⟨3, none⟩ 1500 []
        (by decide) (by decide) rfl).1 5 _ _ rfl⟩⟩

/-! ### Data transfer -/

/-- What `linux_tx` does when its first raw `write` fails with an `errno` other
than `EINTR`: one call, the `errno` recorded, and the returned value is
`bytes_to_c16_samples((size_t) BLADERF_ERR_IO)`. -/
theorem linux_tx_fatal_result (c : Hdr) (env : Env) (fuel : Nat) (dev : Bladerf) (n : Nat)
    (log : Log) (hpos : 0 < c16_samples_to_bytes c n)
    (hret : (env.sys log (.write dev.fd 0 (c16_samples_to_bytes c n))).ret < 0)
    (herrno : (env.sys log (.write dev.fd 0 (c16_samples_to_bytes c n))).errno ≠ EINTR) :
    linux_tx c env (fuel + 1) dev n log =
      some ((toSSize (bytes_to_c16_samples c (toSize c.BLADERF_ERR_IO)),
          { dev with error := some (env.sys log (.write dev.fd 0 (c16_samples_to_bytes c n))).errno }),
        log ++ [⟨.write dev.fd 0 (c16_samples_to_bytes c n),
          env.sys log (.write dev.fd 0 (c16_samples_to_bytes c n))⟩]) := by
  simp [linux_tx, tx_loop, hpos, hret, herrno]

/-- What `linux_rx` does when its first raw `read` fails with an `errno` other
than `EINTR`: one call, the `errno` recorded, and `BLADERF_ERR_IO` returned. -/
theorem linux_rx_fatal_result (c : Hdr) (env : Env) (fuel : Nat) (dev : Bladerf) (n : Nat)
    (log : Log) (hio : c.BLADERF_ERR_IO < 0) (hpos : 0 < c16_samples_to_bytes c n)
    (hret : (env.sys log (.read dev.fd 0 (c16_samples_to_bytes c n))).ret < 0)
    (herrno : (env.sys log (.read dev.fd 0 (c16_samples_to_bytes c n))).errno ≠ EINTR) :
    linux_rx c env (fuel + 1) dev n log =
      some ((c.BLADERF_ERR_IO,
          { dev with error := some (env.sys log (.read dev.fd 0 (c16_samples_to_bytes c n))).errno }),
        log ++ [⟨.read dev.fd 0 (c16_samples_to_bytes c n),
          env.sys log (.read dev.fd 0 (c16_samples_to_bytes c n))⟩]) := by
  simp [linux_rx, rx_loop, hpos, hret, herrno, hio]

/-- The value `linux_tx` returns after a fatal `write` is not negative, whatever
value the header gives `BLADERF_ERR_IO` and whatever sample size of at least two
bytes: it is never a negative status. -/
theorem linux_tx_fatal_result_nonneg (c : Hdr) (hsz : 2 ≤ c.c16_sample_bytes) :
    0 ≤ toSSize (bytes_to_c16_samples c (toSize c.BLADERF_ERR_IO)) := by
  unfold toSSize
  split
  · exact Int.natCast_nonneg _
  · rename_i hge
    exfalso
    apply hge
    have h1 : toSize c.BLADERF_ERR_IO < 18446744073709551616 := by
      unfold toSize
      have := Int.emod_lt_of_pos c.BLADERF_ERR_IO (show (0 : Int) < 18446744073709551616 by norm_num)
      have h0 := Int.emod_nonneg c.BLADERF_ERR_IO (show (18446744073709551616 : Int) ≠ 0 by norm_num)
      omega
    have h2 : bytes_to_c16_samples c (toSize c.BLADERF_ERR_IO) < 9223372036854775808 := by
      unfold bytes_to_c16_samples
      apply Nat.div_lt_of_lt_mul
      nlinarith
    rw [Nat.mod_eq_of_lt (by omega)]
    exact h2

/-- C4 (evaluation at the failing input): `linux_tx` of one sample over a
channel whose first `write` fails with `EIO` issues that one call and records
`errno` 5, but returns 4611686018427387902, a sample count, not
`BLADERF_ERR_IO`; `linux_rx` in the same situation returns `BLADERF_ERR_IO`
(-5). -/
theorem linux_tx_fatal_write_returns_sample_count :
    linux_tx hdr0 envIoError 1 ⟨3, none⟩ 1 [] =
      some ((4611686018427387902, ⟨3, some 5⟩), [⟨.write 3 0 4, ⟨-1, 5, 0, 0⟩⟩]) ∧
    linux_rx hdr0 envIoError 1 ⟨3, none⟩ 1 [] =
      some ((-5, ⟨3, some 5⟩), [⟨.read 3 0 4, ⟨-1, 5, 0, 0⟩⟩]) := by
  constructor <;> rfl

theorem tx_loop_script (c : Hdr) (env : Env) (dev : Bladerf) (total : Nat)
    (htotal : total < 18446744073709551616) :
    ∀ (rest : List Reply) (moved : Nat) (log : Log) (fuel : Nat),
      (∀ i r, rest[i]? = some r → ∀ l c, l.length = log.length + i → env.sys l c = r) →
      validResults total moved rest →
      moved + (rest.map bytesMoved).sum = total →
      rest.length < fuel →
      tx_loop c env total fuel 0 moved dev log =
        some ((0, total, dev), log ++ expectedCalls (.write dev.fd) total moved rest) := by
  intro rest
  induction rest with
  | nil =>
    intro moved log fuel _ _ hsum hfuel
    obtain ⟨f, rfl⟩ : ∃ f, fuel = f + 1 := ⟨fuel - 1, by simp at hfuel; omega⟩
    simp only [List.map_nil, List.sum_nil, Nat.add_zero] at hsum
    subst hsum
    simp [tx_loop, expectedCalls]
  | cons r rs ih =>
    intro moved log fuel henv hvalid hsum hfuel
    obtain ⟨f, rfl⟩ : ∃ f, fuel = f + 1 := ⟨fuel - 1, by simp at hfuel; omega⟩
    simp only [List.map_cons, List.sum_cons] at hsum
    simp only [List.length_cons, Nat.add_lt_add_iff_right] at hfuel
    by_cases hlt : moved < total
    · have hr : ∀ cl, env.sys log cl = r := fun cl => henv 0 r (by simp) log cl rfl
      have henv' : ∀ i r', rs[i]? = some r' → ∀ l cl,
          l.length = (log ++ [(⟨.write dev.fd moved (total - moved), r⟩ : Event)]).length + i →
          env.sys l cl = r' := by
        intro i r' hi l cl hl
        apply henv (i + 1) r' (by simpa using hi) l cl
        simp only [List.length_append, List.length_singleton] at hl
        omega
      obtain ⟨hcase, hvalid'⟩ := hvalid
      have hstep := ih (moved + bytesMoved r) (log ++ [⟨.write dev.fd moved (total - moved), r⟩])
        f henv' hvalid' (by omega) hfuel
      simp only [tx_loop, hlt, if_true, Env.call_fst, Env.call_snd, hr, expectedCalls]
      rcases hcase with ⟨hneg, heintr⟩ | ⟨hnn, hle⟩
      · have hb : bytesMoved r = 0 := by simp [bytesMoved]; omega
        have hnp : ¬ r.ret > 0 := by omega
        rw [hb, Nat.add_zero] at hstep
        simp only [hneg, heintr, ne_eq, not_true_eq_false, and_false, if_false, hnp, hb,
          Nat.add_zero, hstep, List.append_assoc, List.singleton_append]
      · have hnl : ¬ r.ret < 0 := by omega
        by_cases hp : r.ret > 0
        · have hb : bytesMoved r = r.ret.toNat := by simp [bytesMoved, hp]
          have hmod : (moved + r.ret.toNat) % 18446744073709551616 = moved + r.ret.toNat := by
            apply Nat.mod_eq_of_lt
            omega
          rw [hb] at hstep
          simp only [hnl, false_and, if_false, hp, if_true, hmod, hb, hstep, List.append_assoc,
            List.singleton_append]
        · have hb : bytesMoved r = 0 := by simp [bytesMoved]; omega
          rw [hb, Nat.add_zero] at hstep
          simp only [hnl, false_and, if_false, hp, hb, Nat.add_zero, hstep, List.append_assoc,
            List.singleton_append]
    · have : moved = total := by omega
      subst this
      simp [tx_loop, expectedCalls]

theorem rx_loop_script (c : Hdr) (env : Env) (dev : Bladerf) (total : Nat)
    (htotal : total < 18446744073709551616) :
    ∀ (rest : List Reply) (moved : Nat) (log : Log) (fuel : Nat),
      (∀ i r, rest[i]? = some r → ∀ l c, l.length = log.length + i → env.sys l c = r) →
      validResults total moved rest →
      moved + (rest.map bytesMoved).sum = total →
      rest.length < fuel →
      rx_loop c env total fuel 0 moved dev log =
        some ((0, total, dev), log ++ expectedCalls (.read dev.fd) total moved rest) := by
  intro rest
  induction rest with
  | nil =>
    intro moved log fuel _ _ hsum hfuel
    obtain ⟨f, rfl⟩ : ∃ f, fuel = f + 1 := ⟨fuel - 1, by simp at hfuel; omega⟩
    simp only [List.map_nil, List.sum_nil, Nat.add_zero] at hsum
    subst hsum
    simp [rx_loop, expectedCalls]
  | cons r rs ih =>
    intro moved log fuel henv hvalid hsum hfuel
    obtain ⟨f, rfl⟩ : ∃ f, fuel = f + 1 := ⟨fuel - 1, by simp at hfuel; omega⟩
    simp only [List.map_cons, List.sum_cons] at hsum
    simp only [List.length_cons, Nat.add_lt_add_iff_right] at hfuel
    by_cases hlt : moved < total
    · have hr : ∀ cl, env.sys log cl = r := fun cl => henv 0 r (by simp) log cl rfl
      have henv' : ∀ i r', rs[i]? = some r' → ∀ l cl,
          l.length = (log ++ [(⟨.read dev.fd moved (total - moved), r⟩ : Event)]).length + i →
          env.sys l cl = r' := by
        intro i r' hi l cl hl
        apply henv (i + 1) r' (by simpa using hi) l cl
        simp only [List.length_append, List.length_singleton] at hl
        omega
      obtain ⟨hcase, hvalid'⟩ := hvalid
      have hstep := ih (moved + bytesMoved r) (log ++ [⟨.read dev.fd moved (total - moved), r⟩])
        f henv' hvalid' (by omega) hfuel
      simp only [rx_loop, hlt, if_true, Env.call_fst, Env.call_snd, hr, expectedCalls]
      rcases hcase with ⟨hneg, heintr⟩ | ⟨hnn, hle⟩
      · have hb : bytesMoved r = 0 := by simp [bytesMoved]; omega
        have hnp : ¬ r.ret > 0 := by omega
        rw [hb, Nat.add_zero] at hstep
        simp only [hneg, heintr, ne_eq, not_true_eq_false, and_false, if_false, hnp, hb,
          Nat.add_zero, hstep, List.append_assoc, List.singleton_append]
      · have hnl : ¬ r.ret < 0 := by omega
        by_cases hp : r.ret > 0
        · have hb : bytesMoved r = r.ret.toNat := by simp [bytesMoved, hp]
          have hmod : (moved + r.ret.toNat) % 18446744073709551616 = moved + r.ret.toNat := by
            apply Nat.mod_eq_of_lt
            omega
          rw [hb] at hstep
          simp only [hnl, false_and, if_false, hp, if_true, hmod, hb, hstep, List.append_assoc,
            List.singleton_append]
        · have hb : bytesMoved r = 0 := by simp [bytesMoved]; omega
          rw [hb, Nat.add_zero] at hstep
          simp only [hnl, false_and, if_false, hp, hb, Nat.add_zero, hstep, List.append_assoc,
            List.singleton_append]
    · have : moved = total := by omega
      subst this
      simp [rx_loop, expectedCalls]

theorem expectedCalls_sum (mk : Nat → Nat → Call) (total : Nat) :
    ∀ (rest : List Reply) (moved : Nat),
      moved + (rest.map bytesMoved).sum = total →
      moved + ((expectedCalls mk total moved rest).map (fun e => bytesMoved e.reply)).sum
        = total := by
  intro rest
  induction rest with
  | nil => intro moved h; simpa [expectedCalls] using h
  | cons r rs ih =>
    intro moved h
    simp only [List.map_cons, List.sum_cons] at h
    by_cases hlt : moved < total
    · have := ih (moved + bytesMoved r) (by omega)
      simp only [expectedCalls, hlt, if_true, List.map_cons, List.sum_cons]
      omega
    · simp only [expectedCalls, hlt, if_false, List.map_nil, List.sum_nil]
      omega

/-- C5: for `linux_tx` and `linux_rx`, a sample count `n` whose byte length
`B` does not overflow, and a finite sequence `rs` of raw-call results, each an
interruption or a byte count between 0 and the bytes outstanding, whose byte
counts sum to `B`: with fuel for `rs`, the operation returns exactly `n`,
leaves the handle as it was, and its raw calls are the expected ones: each at
offset "bytes moved so far" for "`B` minus bytes moved so far" bytes,
interruptions and zero-byte results moving nothing, and no call once the total
is `B` (the results consumed move `B` bytes in all). -/
theorem linux_tx_rx_transfer_complete (c : Hdr) (env : Env) (dev : Bladerf) (n : Nat)
    (rs : List Reply) (fuel : Nat)
    (hsz : 2 ≤ c.c16_sample_bytes)
    (hn : n * c.c16_sample_bytes < 18446744073709551616)
    (hvalid : validResults (c16_samples_to_bytes c n) 0 rs)
    (hsum : (rs.map bytesMoved).sum = c16_samples_to_bytes c n)
    (henv : ∀ l cl r, rs[l.length]? = some r → env.sys l cl = r)
    (hfuel : rs.length < fuel) :
    linux_tx c env fuel dev n [] =
      some (((n : Int), dev), expectedCalls (.write dev.fd) (c16_samples_to_bytes c n) 0 rs) ∧
    linux_rx c env fuel dev n [] =
      some (((n : Int), dev), expectedCalls (.read dev.fd) (c16_samples_to_bytes c n) 0 rs) ∧
    ((expectedCalls (.write dev.fd) (c16_samples_to_bytes c n) 0 rs).map
      (fun e => bytesMoved e.reply)).sum = c16_samples_to_bytes c n ∧
    ((expectedCalls (.read dev.fd) (c16_samples_to_bytes c n) 0 rs).map
      (fun e => bytesMoved e.reply)).sum = c16_samples_to_bytes c n := by
  have hB : c16_samples_to_bytes c n = n * c.c16_sample_bytes := by
    unfold c16_samples_to_bytes
    exact Nat.mod_eq_of_lt hn
  have hBlt : c16_samples_to_bytes c n < 18446744073709551616 := by rw [hB]; exact hn
  have hdiv : bytes_to_c16_samples c (c16_samples_to_bytes c n) = n := by
    unfold bytes_to_c16_samples
    rw [hB]
    exact Nat.mul_div_cancel n (by omega)
  have hn63 : n < 9223372036854775808 := by nlinarith
  have hss : toSSize n = (n : Int) := by
    unfold toSSize
    rw [Nat.mod_eq_of_lt (by omega)]
    simp [hn63]
  have henv0 : ∀ i r, rs[i]? = some r → ∀ (l : Log) cl,
      l.length = ([] : Log).length + i → env.sys l cl = r := by
    intro i r hi l cl hl
    apply henv l cl r
    simp only [List.length_nil, Nat.zero_add] at hl
    rw [hl]
    exact hi
  have htx := tx_loop_script c env dev _ hBlt rs 0 [] fuel henv0 hvalid (by omega) hfuel
  have hrx := rx_loop_script c env dev _ hBlt rs 0 [] fuel henv0 hvalid (by omega) hfuel
  refine ⟨?_, ?_, ?_, ?_⟩
  · simp [linux_tx, htx, hdiv, hss]
  · simp [linux_rx, hrx, hdiv, hss]
  · simpa using expectedCalls_sum (.write dev.fd) _ rs 0 (by omega)
  · simpa using expectedCalls_sum (.read dev.fd) _ rs 0 (by omega)

/-- Witness for C5: six samples (24 bytes) moved by the results 10, interrupted,
10, 0, 4. -/
theorem linux_tx_rx_transfer_complete_witness :
    linux_tx hdr0 (envScript [⟨10, 0, 0, 0⟩, ⟨-1, 4, 0, 0⟩, ⟨10, 0, 0, 0⟩, ⟨0, 0, 0, 0⟩,
        ⟨4, 0, 0, 0⟩]) 6 ⟨3, none⟩ 6 [] =
      some ((6, ⟨3, none⟩),
        [⟨.write 3 0 24, ⟨10, 0, 0, 0⟩⟩, ⟨.write 3 10 14, ⟨-1, 4, 0, 0⟩⟩,
          ⟨.write 3 10 14, ⟨10, 0, 0, 0⟩⟩, ⟨.write 3 20 4, ⟨0, 0, 0, 0⟩⟩,
          ⟨.write 3 20 4, ⟨4, 0, 0, 0⟩⟩]) :=
  (linux_tx_rx_transfer_complete hdr0
    (envScript [⟨10, 0, 0, 0⟩, ⟨-1, 4, 0, 0⟩, ⟨10, 0, 0, 0⟩, ⟨0, 0, 0, 0⟩, ⟨4, 0, 0, 0⟩])
    ⟨3, none⟩ 6
    [⟨10, 0, 0, 0⟩, ⟨-1, 4, 0, 0⟩, ⟨10, 0, 0, 0⟩, ⟨0, 0, 0, 0⟩, ⟨4, 0, 0, 0⟩] 6
    (by decide) (by decide)
    (by simp [validResults, bytesMoved, c16_samples_to_bytes, hdr0, EINTR])
    (by decide)
    (by intro l cl r h; simp [envScript, List.getD, h])
    (by decide)).1

/-! ### Discovery and open: evaluations -/

/-- C6 (evaluation at the failing input): with one entry `bladerf0` whose
device node opens and whose `BLADE_GET_BUS` query fails, `linux_probe` still
appends the candidate (its bus number left at the wildcard 255); the same
happens when the `BLADE_GET_ADDR` query fails. -/
theorem linux_probe_appends_after_failed_query :
    linux_probe hdr0 (envQueries [entry [ '0']] (-1) 0) 1 [] [] =
      (.ok (0, [⟨1, 0, 255, 7, 0⟩]),
        [⟨.open_dev 0, ⟨10, 0, 0, 0⟩⟩, ⟨.malloc, ⟨1, 0, 0, 0⟩⟩, ⟨.malloc, ⟨1, 0, 0, 0⟩⟩,
          ⟨.ioctl 10 .BLADE_GET_BUS 0 0, ⟨-1, 5, 3, 0⟩⟩,
          ⟨.ioctl 10 .BLADE_GET_ADDR 0 0, ⟨0, 5, 7, 0⟩⟩,
          ⟨.close 10, ⟨0, 0, 0, 0⟩⟩]) ∧
    linux_probe hdr0 (envQueries [entry [ '0']] 0 (-1)) 1 [] [] =
      (.ok (0, [⟨1, 0, 3, 255, 0⟩]),
        [⟨.open_dev 0, ⟨10, 0, 0, 0⟩⟩, ⟨.malloc, ⟨1, 0, 0, 0⟩⟩, ⟨.malloc, ⟨1, 0, 0, 0⟩⟩,
          ⟨.ioctl 10 .BLADE_GET_BUS 0 0, ⟨0, 5, 3, 0⟩⟩,
          ⟨.ioctl 10 .BLADE_GET_ADDR 0 0, ⟨-1, 5, 7, 0⟩⟩,
          ⟨.close 10, ⟨0, 0, 0, 0⟩⟩]) := by
  constructor <;> rfl

/-- An entry numbered as the wildcard instance: `bladerf4294967295` is
accepted by `device_filter` and its instance number is `DEVINFO_INST_ANY`, so
`linux_open` takes its wildcard branch for it and probes again, without end.
With the entries `bladerf0` and `bladerf4294967295` every level of the
recursion opens instance 0 and recurses; the run ends when the fuel does. -/
theorem linux_probe_wildcard_numbered_entry :
    device_filter 0 (entry [ '4', '2', '9', '4', '9', '6', '7', '2', '9', '5']) = 1 ∧
    candInstance hdr0 (entry [ '4', '2', '9', '4', '9', '6', '7', '2', '9', '5'])
      = hdr0.DEVINFO_INST_ANY ∧
    (linux_probe hdr0
      (envOk [entry [ '0'], entry [ '4', '2', '9', '4', '9', '6', '7', '2', '9', '5']])
      3 [] []).1 = .error .fuel ∧
    opensOf (linux_probe hdr0
      (envOk [entry [ '0'], entry [ '4', '2', '9', '4', '9', '6', '7', '2', '9', '5']])
      3 [] []).2 = [0, 0, 0] := by
  refine ⟨by decide, by decide, rfl, by decide⟩

/-- C8 (counterexample): `device_filter` accepts `bladerf+5` and `bladerf 5`,
whose suffixes are not strings of decimal digits, and rejects `bladerf`
followed by twenty nines, whose suffix is one. -/
theorem device_filter_not_digits_only :
    device_filter 0 (entry [ '+', '5']) = 1 ∧ device_filter 0 (entry [ ' ', '5']) = 1 ∧
    device_filter 0 (entry [ '9', '9', '9', '9', '9', '9', '9', '9', '9', '9', '9', '9', '9',
      '9', '9', '9', '9', '9', '9', '9']) = 0 := by
  decide

/-- Names the filter rejects: `foo1`, the bare prefix `bladerf`, `bladerf1x`,
`bladerf-1`, `bladerf+`; and names it accepts: `bladerf0`, `bladerf2`,
`bladerf007`, `bladerf-0`. -/
theorem device_filter_examples :
    device_filter 0 [ 'f', 'o', 'o', '1'] = 0 ∧ device_filter 0 (entry []) = 0 ∧
    device_filter 0 (entry [ '1', 'x']) = 0 ∧ device_filter 0 (entry [ '-', '1']) = 0 ∧
    device_filter 0 (entry [ '+']) = 0 ∧ device_filter 0 (entry [ '0']) = 1 ∧
    device_filter 0 (entry [ '2']) = 1 ∧ device_filter 0 (entry [ '0', '0', '7']) = 1 ∧
    device_filter 0 (entry [ '-', '0']) = 1 := by
  decide

/-- C9 (evaluation at the failing input): a wildcard `linux_open` over the
entries `bladerf0` and `bladerf1`, both of which open: after the discovery pass
(opens of 0 and 1) it opens the device numbered 0 and then the one numbered 1
as well, and the handle it leaves in `*device` is that of the second
(descriptor 11).  When the second can no longer be opened by then, it returns
`BLADERF_ERR_IO` (-5) although the first was opened and its handle stored. -/
theorem linux_open_wildcard_opens_past_first_success :
    (linux_open hdr0 (envOk [entry [ '0'], entry [ '1']]) 2 hdr0.devinfo_init []).1 =
      .ok (0, some ⟨11, none⟩) ∧
    opensOf (linux_open hdr0 (envOk [entry [ '0'], entry [ '1']]) 2 hdr0.devinfo_init []).2 =
      [0, 1, 0, 1] ∧
    (linux_open hdr0 (envSecondGoesAway [entry [ '0'], entry [ '1']] 13) 2
      hdr0.devinfo_init []).1 = .ok (-5, some ⟨10, none⟩) ∧
    opensOf (linux_open hdr0 (envSecondGoesAway [entry [ '0'], entry [ '1']] 13) 2
      hdr0.devinfo_init []).2 = [0, 1, 0, 1] := by
  refine ⟨rfl, by decide, rfl, by decide⟩

/-! ### Register access -/

/-- C10 (counterexample): for the address `0x80`, `linux_si5338_write` and
`linux_lms_write` submit the address `0x80`, while `0x80 & 0x7F` is `0`. -/
theorem register_write_submits_unmasked_address :
    (linux_si5338_write (envOk []) ⟨3, none⟩ 0x80 1 []).2 =
      [⟨.ioctl 3 .BLADE_SI5338_WRITE 0x80 1, ⟨0, 0, 0, 0⟩⟩] ∧
    (linux_lms_write (envOk []) ⟨3, none⟩ 0x80 1 []).2 =
      [⟨.ioctl 3 .BLADE_LMS_WRITE 0x80 1, ⟨0, 0, 0, 0⟩⟩] ∧
    (0x80 &&& 0x7f : Nat) = 0 := by
  decide

/-- C10 (amended): on the Si5338 and LMS buses, a read submits the address with
its top bit cleared (`a & 0x7F`, which is `a % 128`) and the data byte `0xff`;
a write submits the address as given, together with the data byte, so its
address field is `a & 0x7F` exactly for the addresses below 128. -/
theorem register_address_submitted (env : Env) (dev : Bladerf) (a v : Nat) (log : Log) :
    (linux_si5338_read env dev a log).2 =
      log ++ [⟨.ioctl dev.fd .BLADE_SI5338_READ (a &&& 0x7f) 0xff,
        env.sys log (.ioctl dev.fd .BLADE_SI5338_READ (a &&& 0x7f) 0xff)⟩] ∧
    (linux_lms_read env dev a log).2 =
      log ++ [⟨.ioctl dev.fd .BLADE_LMS_READ (a &&& 0x7f) 0xff,
        env.sys log (.ioctl dev.fd .BLADE_LMS_READ (a &&& 0x7f) 0xff)⟩] ∧
    (linux_si5338_write env dev a v log).2 =
      log ++ [⟨.ioctl dev.fd .BLADE_SI5338_WRITE a v,
        env.sys log (.ioctl dev.fd .BLADE_SI5338_WRITE a v)⟩] ∧
    (linux_lms_write env dev a v log).2 =
      log ++ [⟨.ioctl dev.fd .BLADE_LMS_WRITE a v,
        env.sys log (.ioctl dev.fd .BLADE_LMS_WRITE a v)⟩] ∧
    a &&& 0x7f = a % 128 ∧
    (a &&& 0x7f = a ↔ a < 128) := by
  have hmod : a &&& 0x7f = a % 128 := Nat.and_pow_two_sub_one_eq_mod a 7
  refine ⟨rfl, rfl, rfl, rfl, hmod, ?_⟩
  rw [hmod]
  constructor
  · intro h
    have := Nat.mod_lt a (show 0 < 128 by decide)
    omega
  · intro h
    exact Nat.mod_eq_of_lt h

/-! ### The name filter -/

theorem isspace_of_isdigit (ch : Char) (h : isdigit ch = true) : isspace ch = false := by
  simp only [isdigit, isspace, Bool.and_eq_true, decide_eq_true_eq, Bool.or_eq_false_iff,
    decide_eq_false_iff_not, Bool.and_eq_false_imp] at h ⊢
  omega

theorem strtol_wellformed (ws sign ds : List Char)
    (hws : ∀ ch ∈ ws, isspace ch = true)
    (hsign : sign = [] ∨ sign = [ '+'] ∨ sign = [ '-'])
    (hds : ds ≠ []) (hdig : ∀ ch ∈ ds, isdigit ch = true) :
    strtol (ws ++ sign ++ ds) =
      if sign = [ '-'] then
        (if (dec_value ds : Int) > 9223372036854775808 then ⟨LONG_MIN, [], true⟩
          else ⟨-(dec_value ds : Int), [], false⟩)
      else
        (if (dec_value ds : Int) > LONG_MAX then ⟨LONG_MAX, [], true⟩
          else ⟨(dec_value ds : Int), [], false⟩) := by
  obtain ⟨d, ds', rfl⟩ := List.exists_cons_of_ne_nil hds
  have hd : isdigit d = true := hdig d (by simp)
  have hdsp : isspace d = false := isspace_of_isdigit d hd
  have htw : (d :: ds').takeWhile isdigit = d :: ds' := List.takeWhile_eq_self_iff.mpr hdig
  have hdw : (d :: ds').dropWhile isdigit = [] := List.dropWhile_eq_nil_iff.mpr hdig
  have hdm : ¬ d = '-' := by
    rintro rfl
    exact absurd hd (by decide)
  have hdp : ¬ d = '+' := by
    rintro rfl
    exact absurd hd (by decide)
  rcases hsign with rfl | rfl | rfl
  · have ht : (ws ++ [] ++ d :: ds').dropWhile isspace = d :: ds' := by
      rw [List.append_nil, List.dropWhile_append_of_pos hws]
      simp [List.dropWhile, hdsp]
    simp only [strtol, ht]
    simp [hdm, hdp, htw, hdw]
  · have ht : (ws ++ [ '+'] ++ d :: ds').dropWhile isspace = '+' :: d :: ds' := by
      rw [List.append_assoc, List.dropWhile_append_of_pos hws]
      rfl
    simp only [strtol, ht]
    simp [htw, hdw]
  · have ht : (ws ++ [ '-'] ++ d :: ds').dropWhile isspace = '-' :: d :: ds' := by
      rw [List.append_assoc, List.dropWhile_append_of_pos hws]
      rfl
    simp only [strtol, ht]
    simp [htw, hdw]

theorem ite_zero_one_eq_one (P : Prop) [Decidable P] :
    ((if P then (0 : Int) else 1) = 1) = ¬ P := by
  by_cases h : P <;> simp [h]

theorem ite_zero_one_cases (P : Prop) [Decidable P] :
    (if P then (0 : Int) else 1) = 0 ∨ (if P then (0 : Int) else 1) = 1 := by
  by_cases h : P <;> simp [h]

theorem strtol_sign_split (t : List Char) :
    ∃ sign, t = sign ++ (if t.head? = some '-' ∨ t.head? = some '+' then t.tail else t) ∧
      (sign = [] ∨ sign = [ '+'] ∨ sign = [ '-']) := by
  cases t with
  | nil => exact ⟨[], by simp, Or.inl rfl⟩
  | cons a t' =>
    by_cases hm : a = '-'
    · subst hm
      exact ⟨[ '-'], by simp, Or.inr (Or.inr rfl)⟩
    · by_cases hp : a = '+'
      · subst hp
        exact ⟨[ '+'], by simp, Or.inr (Or.inl rfl)⟩
      · exact ⟨[], by simp [hm, hp], Or.inl rfl⟩

theorem strtol_complete (s : List Char) (hs : s ≠ []) (h : (strtol s).endptr = []) :
    ∃ ws sign ds, s = ws ++ sign ++ ds ∧ (∀ ch ∈ ws, isspace ch = true) ∧
      (sign = [] ∨ sign = [ '+'] ∨ sign = [ '-']) ∧ ds ≠ [] ∧
      (∀ ch ∈ ds, isdigit ch = true) := by
  obtain ⟨sign, hsplit, hsign⟩ := strtol_sign_split (s.dropWhile isspace)
  simp only [strtol] at h
  generalize hu : (if (s.dropWhile isspace).head? = some '-' ∨
      (s.dropWhile isspace).head? = some '+' then (s.dropWhile isspace).tail
      else s.dropWhile isspace) = u at h hsplit
  by_cases hds : u.takeWhile isdigit = []
  · simp only [hds, if_true] at h
    exact absurd h hs
  · simp only [hds, if_false] at h
    have hrest : u.dropWhile isdigit = [] := by
      split at h <;> split at h <;> exact h
    have hall : ∀ ch ∈ u, isdigit ch = true := List.dropWhile_eq_nil_iff.mp hrest
    have hune : u ≠ [] := by
      rintro rfl
      exact hds rfl
    refine ⟨s.takeWhile isspace, sign, u, ?_, fun ch hch => List.mem_takeWhile_imp hch, hsign,
      hune, hall⟩
    rw [List.append_assoc, ← hsplit, List.takeWhile_append_dropWhile]

/-- C8 (amended): `device_filter` accepts an entry exactly when its name is the
prefix `bladerf` followed by a suffix that `strtol` converts completely to a
non-negative `long` (optional white space, an optional sign, a non-empty run of
decimal digits, value at most `LONG_MAX` and zero after `-`); every other name
is rejected with `0`. -/
theorem device_filter_accepts_iff (errno : Int) (d_name : List Char) :
    (device_filter errno d_name = 1 ↔
      ∃ suffix, d_name = BLADERF_DEV_PFX ++ suffix ∧ AcceptedSuffix errno suffix) ∧
    (device_filter errno d_name = 1 ∨ device_filter errno d_name = 0) := by
  constructor
  · constructor
    · intro h
      by_cases hpre : d_name.length > BLADERF_DEV_PFX.length ∧
          d_name.take BLADERF_DEV_PFX.length = BLADERF_DEV_PFX
      · obtain ⟨hlen, htake⟩ := hpre
        simp only [device_filter, hlen, htake, and_self, if_true, ite_zero_one_eq_one] at h
        simp only [not_or] at h
        obtain ⟨hend, hval, hrange⟩ := h
        simp only [ne_eq, not_not] at hend
        have hne : d_name.drop BLADERF_DEV_PFX.length ≠ [] := by
          intro h0
          have := congrArg List.length h0
          simp only [List.length_drop, List.length_nil] at this
          omega
        obtain ⟨ws, sign, ds, hsuf, hws, hsign, hds, hdig⟩ := strtol_complete _ hne hend
        refine ⟨d_name.drop BLADERF_DEV_PFX.length, ?_, ws, sign, ds, hsuf, hws, hsign, hds,
          hdig, ?_, ?_⟩
        · have hsplit := List.take_append_drop BLADERF_DEV_PFX.length d_name
          rw [htake] at hsplit
          exact hsplit.symm
        · intro hs
          rw [hsuf, strtol_wellformed ws sign ds hws hsign hds hdig] at hval
          simp only [hs, if_true] at hval
          split at hval
          · exact absurd hval (by simp [LONG_MIN])
          · simp only [not_lt, Left.nonneg_neg_iff] at hval
            omega
        · intro hs
          rw [hsuf, strtol_wellformed ws sign ds hws hsign hds hdig] at hval hrange
          simp only [hs, if_false] at hval hrange
          split at hrange
          · simp at hrange
          · rename_i hle
            simp only [Bool.false_eq_true, if_false] at hrange
            refine ⟨by omega, ?_⟩
            rintro ⟨he, hv⟩
            exact hrange ⟨he, Or.inl hv⟩
      · simp only [device_filter, hpre, if_false] at h
        exact absurd h (by decide)
    · rintro ⟨suffix, rfl, ws, sign, ds, rfl, hws, hsign, hds, hdig, hneg, hpos⟩
      have hlen : (BLADERF_DEV_PFX ++ (ws ++ sign ++ ds)).length > BLADERF_DEV_PFX.length := by
        have : 0 < ds.length := List.length_pos.mpr hds
        simp only [List.length_append]
        omega
      simp only [device_filter, hlen, List.take_left, List.drop_left, true_and, if_true,
        strtol_wellformed ws sign ds hws hsign hds hdig]
      by_cases hs : sign = [ '-']
      · have h0 := hneg hs
        simp [hs, h0, LONG_MAX, LONG_MIN]
      · obtain ⟨hle, hnr⟩ := hpos hs
        have hnl : ¬ (dec_value ds : Int) > LONG_MAX := by omega
        simp only [hs, if_false, hnl, Bool.false_eq_true]
        have hnn : ¬ ((dec_value ds : Int) < 0) := by omega
        have hmin : ¬ ((dec_value ds : Int) = LONG_MIN) := by
          simp only [LONG_MIN]; omega
        simp only [ne_eq, not_true_eq_false, hnn, hmin, or_false, false_or, hnr, if_false]
  · by_cases hpre : d_name.length > BLADERF_DEV_PFX.length ∧
        d_name.take BLADERF_DEV_PFX.length = BLADERF_DEV_PFX
    · simp only [device_filter, hpre, and_self, if_true]
      exact (ite_zero_one_cases _).symm
    · right
      simp only [device_filter, hpre, if_false]

/-! ### Discovery: the order of the candidates -/

theorem linux_open_given_instance (c : Hdr) (env : Env) (fuel : Nat) (info : DevInfo) (log : Log)
    (hb : info.backend = c.BACKEND_LINUX ∨ info.backend = c.BACKEND_ANY)
    (hi : info.instance_ ≠ c.DEVINFO_INST_ANY) :
    linux_open c env (fuel + 1) info log =
      (.ok (open_instance c env info log).1, (open_instance c env info log).2) := by
  simp [linux_open, hb, hi]

theorem lane_byte (x : Nat) : x &&& 0xFF = x % 256 :=
  Nat.and_pow_two_sub_one_eq_mod x 8

theorem laneCommands_eq (fd : Int) (cmd : Ioctl) (V : Nat) :
    (List.range' 0 4).map (fun j => Call.ioctl fd cmd j ((V >>> (j * 8)) % 256)) =
      laneCommands fd cmd V := by
  simp [laneCommands, List.range', List.range_succ, lane_byte]

theorem LanePrefix.nil (status : Int) (h : status = 0) : LanePrefix [] [] status :=
  ⟨List.prefix_refl _, [], [], rfl, by simp, Or.inl ⟨rfl, rfl, h⟩⟩

theorem LanePrefix.failed (lane : Call) (lanes : List Call) (r : Reply) (status : Int)
    (hr : r.ret ≠ 0) (hs : status ≠ 0) :
    LanePrefix (lane :: lanes) [⟨lane, r⟩] status :=
  ⟨by simp, [], [⟨lane, r⟩], rfl, by simp, Or.inr ⟨_, rfl, hr, hs⟩⟩

theorem LanePrefix.cons (lane : Call) (lanes : List Call) (r : Reply) (tr : Log) (status : Int)
    (hr : r.ret = 0) (h : LanePrefix lanes tr status) :
    LanePrefix (lane :: lanes) (⟨lane, r⟩ :: tr) status := by
  obtain ⟨hp, ok, bad, rfl, hok, hcase⟩ := h
  refine ⟨?_, ⟨lane, r⟩ :: ok, bad, rfl, ?_, ?_⟩
  · simpa [List.cons_prefix_cons] using hp
  · intro e he
    rcases List.mem_cons.mp he with rfl | he
    · exact hr
    · exact hok e he
  · rcases hcase with ⟨hb, hl, hs⟩ | hfail
    · exact Or.inl ⟨hb, by simp [hl], hs⟩
    · exact Or.inr hfail

theorem gpio_write_loop_lanes (c : Hdr) (env : Env) (dev : Bladerf) (V : Nat)
    (hto : c.BLADERF_ERR_TIMEOUT ≠ 0) (hun : c.BLADERF_ERR_UNEXPECTED ≠ 0) :
    ∀ (k i : Nat) (log : Log),
      ∃ tr, (gpio_write_loop c env dev V k i 0 log).2 = log ++ tr ∧
        LanePrefix
          ((List.range' i k).map
            (fun j => Call.ioctl dev.fd .BLADE_GPIO_WRITE j ((V >>> (j * 8)) % 256)))
          tr (gpio_write_loop c env dev V k i 0 log).1 := by
  intro k
  induction k with
  | zero =>
    intro i log
    exact ⟨[], by simp [gpio_write_loop], by simpa [gpio_write_loop] using LanePrefix.nil 0 rfl⟩
  | succ k ih =>
    intro i log
    simp only [gpio_write_loop, Env.call_fst, Env.call_snd, List.range'_succ, List.map_cons]
    split
    · rename_i hr
      refine ⟨[_], rfl, LanePrefix.failed _ _ _ _ hr ?_⟩
      split <;> assumption
    · rename_i hr
      simp only [ne_eq, not_not] at hr
      rw [hr]
      obtain ⟨tr, hlog, hlanes⟩ := ih (i + 1)
        (log ++ [⟨.ioctl dev.fd .BLADE_GPIO_WRITE i ((V >>> (i * 8)) % 256),
          env.sys log (.ioctl dev.fd .BLADE_GPIO_WRITE i ((V >>> (i * 8)) % 256))⟩])
      refine ⟨_ :: tr, by rw [hlog]; exact log_append_one _ _ _, ?_⟩
      exact LanePrefix.cons _ _ _ _ _ hr hlanes

theorem dac_write_loop_lanes (env : Env) (dev : Bladerf) (V : Nat) :
    ∀ (k i : Nat) (log : Log),
      ∃ tr, (dac_write_loop env dev V k i 0 log).2 = log ++ tr ∧
        LanePrefix
          ((List.range' i k).map
            (fun j => Call.ioctl dev.fd .BLADE_VCTCXO_WRITE j ((V >>> (j * 8)) % 256)))
          tr (dac_write_loop env dev V k i 0 log).1 := by
  intro k
  induction k with
  | zero =>
    intro i log
    exact ⟨[], by simp [dac_write_loop], by simpa [dac_write_loop] using LanePrefix.nil 0 rfl⟩
  | succ k ih =>
    intro i log
    simp only [dac_write_loop, Env.call_fst, Env.call_snd, List.range'_succ, List.map_cons]
    split
    · rename_i hr
      exact ⟨[_], rfl, LanePrefix.failed _ _ _ _ hr hr⟩
    · rename_i hr
      simp only [ne_eq, not_not] at hr
      rw [hr]
      obtain ⟨tr, hlog, hlanes⟩ := ih (i + 1)
        (log ++ [⟨.ioctl dev.fd .BLADE_VCTCXO_WRITE i ((V >>> (i * 8)) % 256),
          env.sys log (.ioctl dev.fd .BLADE_VCTCXO_WRITE i ((V >>> (i * 8)) % 256))⟩])
      refine ⟨_ :: tr, by rw [hlog]; exact log_append_one _ _ _, ?_⟩
      exact LanePrefix.cons _ _ _ _ _ hr hlanes

/-- C12: `linux_gpio_write` and `linux_dac_write` of a value `V` issue the
longest leading part of the four lane sub-commands `(addr i, b_i)`,
`b_i = (V >> (8*i)) & 0xFF`, that ends at the first failing sub-command: the
sub-commands issued are lanes in lane order; when none fails all four are
issued and the status is `0`; when one fails it is the last one issued and the
status is not `0`. -/
theorem lane_writes_stop_at_first_failure (c : Hdr) (env : Env) (dev : Bladerf) (V : Nat)
    (log : Log) (hto : c.BLADERF_ERR_TIMEOUT < 0) (hun : c.BLADERF_ERR_UNEXPECTED < 0) :
    (∃ tr, (linux_gpio_write c env dev V log).2 = log ++ tr ∧
      LanePrefix (laneCommands dev.fd .BLADE_GPIO_WRITE V) tr
        (linux_gpio_write c env dev V log).1) ∧
    (∃ tr, (linux_dac_write env dev V log).2 = log ++ tr ∧
      LanePrefix (laneCommands dev.fd .BLADE_VCTCXO_WRITE V) tr
        (linux_dac_write env dev V log).1) := by
  constructor
  · have h := gpio_write_loop_lanes c env dev V (by omega) (by omega) 4 0 log
    rw [laneCommands_eq] at h
    exact h
  · have h := dac_write_loop_lanes env dev V 4 0 log
    rw [laneCommands_eq] at h
    exact h

/-- Witness for C12: the sub-command for lane 2 of `0xDEADBEEF` times out. -/
theorem lane_writes_stop_at_first_failure_witness :
    (linux_gpio_write hdr0 envLaneFails ⟨3, none⟩ 0xDEADBEEF []).1 = -6 ∧
    (linux_gpio_write hdr0 envLaneFails ⟨3, none⟩ 0xDEADBEEF []).2.map (fun e => e.call) =
      [.ioctl 3 .BLADE_GPIO_WRITE 0 0xEF, .ioctl 3 .BLADE_GPIO_WRITE 1 0xBE,
        .ioctl 3 .BLADE_GPIO_WRITE 2 0xAD] ∧
    ∃ tr, (linux_gpio_write hdr0 envLaneFails ⟨3, none⟩ 0xDEADBEEF []).2 = [] ++ tr ∧
      LanePrefix (laneCommands 3 .BLADE_GPIO_WRITE 0xDEADBEEF) tr
        (linux_gpio_write hdr0 envLaneFails ⟨3, none⟩ 0xDEADBEEF []).1 :=
  ⟨by decide, by decide,
    (lane_writes_stop_at_first_failure hdr0 envLaneFails ⟨3, none⟩ 0xDEADBEEF []
      (by decide) (by decide)).1⟩

/-! ### Register access: write, then read, over the mock channel -/

theorem byte_of_out (n : Nat) : (((n : Int)) % 256).toNat = n % 256 := by
  omega

theorem assemble_lanes (V : Nat) (hV : V < 2 ^ 32) :
    ((((0 ||| ((V >>> 0) % 2 ^ 8) <<< 0) % 2 ^ 32 ||| ((V >>> 8) % 2 ^ 8) <<< 8) % 2 ^ 32
      ||| ((V >>> 16) % 2 ^ 8) <<< 16) % 2 ^ 32 ||| ((V >>> 24) % 2 ^ 8) <<< 24) % 2 ^ 32
      = V := by
  apply Nat.eq_of_testBit_eq
  intro j
  have hhigh : 32 ≤ j → V.testBit j = false := by
    intro h
    apply Nat.testBit_lt_two_pow
    exact Nat.lt_of_lt_of_le hV (Nat.pow_le_pow_right (by decide) h)
  simp only [Nat.testBit_mod_two_pow, Nat.testBit_or, Nat.testBit_shiftLeft,
    Nat.testBit_shiftRight, Nat.zero_testBit, Bool.false_or, Nat.sub_zero, Nat.zero_add,
    ge_iff_le, Nat.zero_le, decide_True, Bool.true_and]
  by_cases h8 : j < 8
  · have e1 : ¬ 8 ≤ j := by omega
    have e2 : ¬ 16 ≤ j := by omega
    have e3 : ¬ 24 ≤ j := by omega
    have e4 : j < 32 := by omega
    simp [h8, e1, e2, e3, e4]
  · by_cases h16 : j < 16
    · have e1 : 8 ≤ j := by omega
      have e2 : ¬ 16 ≤ j := by omega
      have e3 : ¬ 24 ≤ j := by omega
      have e4 : j < 32 := by omega
      have e5 : j - 8 < 8 := by omega
      have e6 : 8 + (j - 8) = j := by omega
      simp [h8, e1, e2, e3, e4, e5, e6]
    · by_cases h24 : j < 24
      · have e1 : 8 ≤ j := by omega
        have e2 : 16 ≤ j := by omega
        have e3 : ¬ 24 ≤ j := by omega
        have e4 : j < 32 := by omega
        have e5 : ¬ j - 8 < 8 := by omega
        have e6 : 16 + (j - 16) = j := by omega
        have e7 : j - 16 < 8 := by omega
        simp [h8, e1, e2, e3, e4, e5, e6, e7]
      · by_cases h32 : j < 32
        · have e1 : 8 ≤ j := by omega
          have e2 : 16 ≤ j := by omega
          have e3 : 24 ≤ j := by omega
          have e5 : ¬ j - 8 < 8 := by omega
          have e6 : 24 + (j - 24) = j := by omega
          have e7 : ¬ j - 16 < 8 := by omega
          have e8 : j - 24 < 8 := by omega
          simp [h8, e1, e2, e3, h32, e5, e6, e7, e8]
        · have := hhigh (by omega)
          simp [h32, this]

theorem mockStored_append_one (wcmd : Ioctl) (addr : Nat) (log : Log) (e : Event) :
    mockStored wcmd addr (log ++ [e]) =
      match e.call with
      | .ioctl _ cmd a d => if cmd = wcmd ∧ a = addr then d else mockStored wcmd addr log
      | _ => mockStored wcmd addr log := by
  simp [mockStored, List.foldl_append]

theorem mockChannel_read (fd : Int) (rcmd wcmd : Ioctl) (addr data : Nat) (log : Log)
    (h : storingWrite rcmd = some wcmd) :
    mockChannel.sys log (.ioctl fd rcmd addr data) = ⟨0, 0, (mockStored wcmd addr log : Nat), 0⟩ := by
  simp [mockChannel, h]

theorem mockChannel_ret (log : Log) (c : Call) : (mockChannel.sys log c).ret = 0 := by
  unfold mockChannel
  cases c with
  | ioctl fd cmd addr data =>
    simp only
    cases storingWrite cmd <;> rfl
  | _ => rfl

/-- Over the mock channel the loop of `linux_gpio_read` succeeds and builds its
value from the bytes stored at the lane addresses. -/
theorem gpio_read_loop_mock (c : Hdr) (dev : Bladerf) :
    ∀ (k i rval : Nat) (log : Log),
      (gpio_read_loop c mockChannel dev k i rval 0 log).1 =
        (0, assembleLanes (fun a => mockStored .BLADE_GPIO_WRITE a log) k i rval) := by
  intro k
  induction k with
  | zero => intro i rval log; rfl
  | succ k ih =>
    intro i rval log
    have hst : (fun a => mockStored .BLADE_GPIO_WRITE a
        (log ++ [⟨.ioctl dev.fd .BLADE_GPIO_READ i 0xff,
          mockChannel.sys log (.ioctl dev.fd .BLADE_GPIO_READ i 0xff)⟩])) =
        fun a => mockStored .BLADE_GPIO_WRITE a log := by
      funext a
      simp [mockStored_append_one]
    simp only [gpio_read_loop, Env.call_fst, Env.call_snd, mockChannel_ret, ne_eq,
      not_true_eq_false, if_false, ih, hst, assembleLanes]
    rw [mockChannel_read dev.fd .BLADE_GPIO_READ .BLADE_GPIO_WRITE i 0xff log rfl]
    simp only [byte_of_out]

/-- What `linux_gpio_write` does over the mock channel: status `0`, and
afterwards lane `i` holds byte `i` of the value. -/
theorem linux_gpio_write_mock (c : Hdr) (dev : Bladerf) (V : Nat) (log : Log) :
    (linux_gpio_write c mockChannel dev V log).1 = 0 ∧
    (fun a => mockStored .BLADE_GPIO_WRITE a (linux_gpio_write c mockChannel dev V log).2) 0
      = V % 256 ∧
    (fun a => mockStored .BLADE_GPIO_WRITE a (linux_gpio_write c mockChannel dev V log).2) 1
      = (V >>> 8) % 256 ∧
    (fun a => mockStored .BLADE_GPIO_WRITE a (linux_gpio_write c mockChannel dev V log).2) 2
      = (V >>> 16) % 256 ∧
    (fun a => mockStored .BLADE_GPIO_WRITE a (linux_gpio_write c mockChannel dev V log).2) 3
      = (V >>> 24) % 256 := by
  have hw : linux_gpio_write c mockChannel dev V log =
      (0, log ++ [⟨.ioctl dev.fd .BLADE_GPIO_WRITE 0 ((V >>> (0 * 8)) % 256), ⟨0, 0, 0, 0⟩⟩,
        ⟨.ioctl dev.fd .BLADE_GPIO_WRITE 1 ((V >>> (1 * 8)) % 256), ⟨0, 0, 0, 0⟩⟩,
        ⟨.ioctl dev.fd .BLADE_GPIO_WRITE 2 ((V >>> (2 * 8)) % 256), ⟨0, 0, 0, 0⟩⟩,
        ⟨.ioctl dev.fd .BLADE_GPIO_WRITE 3 ((V >>> (3 * 8)) % 256), ⟨0, 0, 0, 0⟩⟩]) := by
    simp [linux_gpio_write, gpio_write_loop, mockChannel, storingWrite]
  rw [hw]
  simp [mockStored, List.foldl_append]

/-- C11: over the mock control channel, on the Si5338 and LMS buses a write of
the byte `v` at an address in 0..127 followed by a read at that address returns
status 0 and the value `v`; and `linux_gpio_write` of a 32-bit value `V`
followed by `linux_gpio_read` returns status 0 and the value `V`. -/
theorem register_write_then_read (c : Hdr) (dev : Bladerf) (log : Log) (addr v V : Nat)
    (haddr : addr < 128) (hv : v < 256) (hV : V < 4294967296) :
    (linux_si5338_write mockChannel dev addr v log).1 = 0 ∧
    (linux_si5338_read mockChannel dev addr
      (linux_si5338_write mockChannel dev addr v log).2).1 = (0, v) ∧
    (linux_lms_write mockChannel dev addr v log).1 = 0 ∧
    (linux_lms_read mockChannel dev addr
      (linux_lms_write mockChannel dev addr v log).2).1 = (0, v) ∧
    (linux_gpio_write c mockChannel dev V log).1 = 0 ∧
    (linux_gpio_read c mockChannel dev (linux_gpio_write c mockChannel dev V log).2).1 =
      (0, V) := by
  have hmask : addr &&& 0x7f = addr :=
    Nat.and_pow_two_sub_one_of_lt_two_pow (n := 7) (by simpa using haddr)
  have hbyte : (((v : Nat) : Int) % 256).toNat = v := by omega
  refine ⟨?_, ?_, ?_, ?_, ?_, ?_⟩
  · simp [linux_si5338_write, mockChannel_ret]
  · simp only [linux_si5338_read, linux_si5338_write, Env.call_fst, Env.call_snd, hmask,
      mockChannel_ret]
    rw [mockChannel_read dev.fd .BLADE_SI5338_READ .BLADE_SI5338_WRITE addr 0xff _ rfl]
    simp [mockStored_append_one, hbyte]
  · simp [linux_lms_write, mockChannel_ret]
  · simp only [linux_lms_read, linux_lms_write, Env.call_fst, Env.call_snd, hmask,
      mockChannel_ret]
    rw [mockChannel_read dev.fd .BLADE_LMS_READ .BLADE_LMS_WRITE addr 0xff _ rfl]
    simp [mockStored_append_one, hbyte]
  · exact (linux_gpio_write_mock c dev V log).1
  · obtain ⟨-, h0, h1, h2, h3⟩ := linux_gpio_write_mock c dev V log
    simp only at h0 h1 h2 h3
    rw [linux_gpio_read, gpio_read_loop_mock]
    simp only [assembleLanes, h0, h1, h2, h3, Nat.zero_add, Nat.mod_mod]
    have := assemble_lanes V (by simpa using hV)
    simpa using this

/-- Witness for C11: address 100 and byte 77 on the Si5338 bus, and the GPIO
value `0xDEADBEEF`. -/
theorem register_write_then_read_witness :
    (linux_si5338_read mockChannel ⟨3, none⟩ 100
      (linux_si5338_write mockChannel ⟨3, none⟩ 100 77 []).2).1 = (0, 77) ∧
    (linux_gpio_read hdr0 mockChannel ⟨3, none⟩
      (linux_gpio_write hdr0 mockChannel ⟨3, none⟩ 0xDEADBEEF []).2).1 = (0, 0xDEADBEEF) :=
  ⟨(register_write_then_read hdr0 ⟨3, none⟩ [] 100 77 0xDEADBEEF
      (by decide) (by decide) (by decide)).2.1,
    (register_write_then_read hdr0 ⟨3, none⟩ [] 100 77 0xDEADBEEF
      (by decide) (by decide) (by decide)).2.2.2.2.2⟩

/-! ### Open: the status and the stored handle -/

/-- `linux_open` for a given instance: either the device node opened and both
allocations succeeded, the status is `0` and the handle stored in `*device`
holds the descriptor `open` returned; or the status is `BLADERF_ERR_IO` and
nothing is stored. -/
theorem linux_open_given_instance_result (c : Hdr) (env : Env) (fuel : Nat) (info : DevInfo)
    (log : Log) (hb : info.backend = c.BACKEND_LINUX ∨ info.backend = c.BACKEND_ANY)
    (hi : info.instance_ ≠ c.DEVINFO_INST_ANY) :
    (0 ≤ (env.sys log (.open_dev info.instance_)).ret ∧
      (linux_open c env (fuel + 1) info log).1 =
        .ok (0, some ⟨(env.sys log (.open_dev info.instance_)).ret, none⟩)) ∨
    (linux_open c env (fuel + 1) info log).1 = .ok (c.BLADERF_ERR_IO, none) := by
  rw [linux_open_given_instance c env fuel info log hb hi]
  simp only [open_instance, Env.call_fst, Env.call_snd]
  split
  · rename_i hfd
    split
    · exact Or.inl ⟨hfd, rfl⟩
    · exact Or.inr rfl
  · exact Or.inr rfl

/-- A wildcard `linux_open` when `scandir` finds no entry: the list
initialisation is the only call, the status is `0`, the status `linux_probe`
returned, and nothing is stored in `*device`. -/
theorem linux_open_wildcard_no_entry (c : Hdr) (env : Env) (fuel : Nat) (info : DevInfo)
    (log : Log) (hb : info.backend = c.BACKEND_LINUX ∨ info.backend = c.BACKEND_ANY)
    (hi : info.instance_ = c.DEVINFO_INST_ANY)
    (hinit : 0 ≤ (env.sys log .devinfo_list_init).ret)
    (hdir : scandir env = []) :
    linux_open c env (fuel + 1) info log =
      (.ok (0, none), log ++ [⟨.devinfo_list_init, env.sys log .devinfo_list_init⟩]) := by
  have hnot : ¬ (env.sys log .devinfo_list_init).ret < 0 := by omega
  simp [linux_open, hb, hi, hnot, hdir, probe_scan, open_scan]

/-- C13 (evaluation at the failing input): a wildcard `linux_open` with no
`bladerf` entry in the directory returns `0` after the list initialisation
alone, with nothing stored in `*device`; so does a wildcard `linux_open` asking
for USB bus 5 when the only device, `bladerf0`, is on bus 0.  A request for
the device numbered 7, whose node cannot be opened, returns `BLADERF_ERR_IO`
(-5) and stores nothing. -/
theorem linux_open_wildcard_returns_success_without_device :
    linux_open hdr0 (envOk []) 2 hdr0.devinfo_init [] =
      (.ok (0, none), [⟨.devinfo_list_init, ⟨0, 0, 0, 0⟩⟩]) ∧
    (linux_open hdr0 (envOk [entry [ '0']]) 2 { hdr0.devinfo_init with usb_bus := 5 } []).1 =
      .ok (0, none) ∧
    opensOf (linux_open hdr0 (envOk [entry [ '0']]) 2
      { hdr0.devinfo_init with usb_bus := 5 } []).2 = [0] ∧
    linux_open hdr0 envIoError 1 { hdr0.devinfo_init with instance_ := 7 } [] =
      (.ok (-5, none), [⟨.open_dev 7, ⟨-1, 5, 0, 0⟩⟩]) := by
  refine ⟨rfl, rfl, by decide, rfl⟩

end BladeRF
